import Mathlib

/-!
Verification of the pyafai simulation framework (vendored in the Pacman-AI
repository): a shallow embedding of `pyafai/core.py`, `pyafai/objects.py`
and `pyafai/influence.py` in Lean 4, together with proofs about the grid
bookkeeping, pausing, bounds clamping, influence maps, angle normalisation
and agent/body back-references.

Modelling conventions:
* Python floats are modelled as rationals (`ℚ`); all the operations under
  study (comparison, rounding, clamping, modulo) are exact on the inputs
  considered.
* Python object identity is modelled by a numeric id (`oid` for objects,
  `aid` for agents); mutation of an object in place becomes replacement of
  the entry with that id in the world's object list.  An action can change
  any field of an object except its identity, which mutation cannot touch.
* Code that can raise an exception (`list.remove` on an absent element,
  out-of-range list indexing, attribute access on `None`) is modelled with
  `Option`: `none` is a raised exception.
* `math.cos`/`math.sin` (used only to recompute a physics object's velocity
  components) are abstracted by function parameters `cosDeg sinDeg : ℚ → ℚ`
  taking the angle in degrees, standing for `math.cos(a * DEG2RAD)` and
  `math.sin(a * DEG2RAD)`.
-/

namespace Pyafai

/-! ### Python's `round` (banker's rounding, `round(x)` with one argument) -/

/-- Python 3 `round(q)`: the nearest integer, halves going to the even
integer. -/
def pyround (q : ℚ) : ℤ :=
  if q - ⌊q⌋ < 1/2 then ⌊q⌋
  else if q - ⌊q⌋ > 1/2 then ⌊q⌋ + 1
  else if 2 ∣ ⌊q⌋ then ⌊q⌋ else ⌊q⌋ + 1

theorem pyround_le (q : ℚ) : (pyround q : ℚ) ≤ q + 1/2 := by
  unfold pyround
  have h0 : (⌊q⌋ : ℚ) ≤ q := Int.floor_le q
  have h1 : q < ⌊q⌋ + 1 := Int.lt_floor_add_one q
  split <;> rename_i h
  · linarith
  · split <;> rename_i h2
    · push_cast; linarith
    · split <;> push_cast <;> linarith

theorem le_pyround (q : ℚ) : q - 1/2 ≤ (pyround q : ℚ) := by
  unfold pyround
  have h0 : (⌊q⌋ : ℚ) ≤ q := Int.floor_le q
  have h1 : q < ⌊q⌋ + 1 := Int.lt_floor_add_one q
  split <;> rename_i h
  · linarith
  · split <;> rename_i h2
    · push_cast; linarith
    · split <;> push_cast <;> linarith

/-- Python's `round` of a half-integer `n + 1/2` is `n` when `n` is even and
`n + 1` when `n` is odd. -/
theorem pyround_half (n : ℤ) :
    pyround ((n : ℚ) + 1/2) = if 2 ∣ n then n else n + 1 := by
  have hfl : ⌊(n : ℚ) + 1/2⌋ = n := by
    rw [add_comm, Int.floor_add_int]
    norm_num [Int.floor_eq_iff]
  unfold pyround
  rw [hfl]
  have hr : ((n : ℚ) + 1/2) - (n : ℚ) = 1/2 := by ring
  rw [hr]
  norm_num

/-- If `-1/2 ≤ q` then Python's `round(q)` is nonnegative. -/
theorem pyround_nonneg {q : ℚ} (h : -(1/2) ≤ q) : 0 ≤ pyround q := by
  by_contra hneg
  push_neg at hneg
  have h1 : pyround q ≤ -1 := by omega
  have h2 : (pyround q : ℚ) ≤ -1 := by exact_mod_cast h1
  have h3 : q - 1/2 ≤ (pyround q : ℚ) := le_pyround q
  have hq : q = -(1/2) := by linarith
  subst hq
  have hv : ((-1 : ℤ) : ℚ) + 1/2 = -(1/2) := by norm_num
  have : pyround (-(1/2) : ℚ) = 0 := by
    have h4 := pyround_half (-1)
    rw [hv] at h4
    norm_num at h4
    exact h4
  omega

/-- If `0 ≤ q` then Python's `round(q)` is nonnegative. -/
theorem pyround_nonneg_of_nonneg {q : ℚ} (h : 0 ≤ q) : 0 ≤ pyround q :=
  pyround_nonneg (by linarith)

/-- If `q ≤ m` for an integer `m` then Python's `round(q)` is at most `m`. -/
theorem pyround_le_int {q : ℚ} {m : ℤ} (h : q ≤ (m : ℚ)) : pyround q ≤ m := by
  have h1 : (pyround q : ℚ) ≤ q + 1/2 := pyround_le q
  have h2 : (pyround q : ℚ) < (m : ℚ) + 1 := by linarith
  have : pyround q < m + 1 := by exact_mod_cast h2
  omega

/-- If the value is strictly below the half-integer `m - 1/2`, rounding stays
strictly below `m`. -/
theorem pyround_lt_int {q : ℚ} {m : ℤ} (h : q < (m : ℚ) - 1/2) :
    pyround q < m := by
  have h1 : (pyround q : ℚ) ≤ q + 1/2 := pyround_le q
  have h2 : (pyround q : ℚ) < (m : ℚ) := by linarith
  exact_mod_cast h2

/-- Python's `round` of an integer is that integer. -/
theorem pyround_intCast (n : ℤ) : pyround (n : ℚ) = n := by
  unfold pyround
  rw [Int.floor_intCast]
  norm_num

/-! ### Python list indexing

`l[i]` on a Python list of length `n` resolves a negative index `i` to
`n + i`; an index outside `[-n, n-1]` raises `IndexError` (modelled as
`none`). -/

/-- Resolve a Python list index against a list of length `n`: the actual
nonnegative position, or `none` for an `IndexError`. -/
def pyIdx (n : ℕ) (i : ℤ) : Option ℕ :=
  if 0 ≤ i then (if i < (n : ℤ) then some i.toNat else none)
  else (if -i ≤ (n : ℤ) then some (n - (-i).toNat) else none)

theorem pyIdx_of_nonneg {n : ℕ} {i : ℤ} (h0 : 0 ≤ i) (h1 : i < (n : ℤ)) :
    pyIdx n i = some i.toNat := by
  unfold pyIdx
  rw [if_pos h0, if_pos h1]

theorem pyIdx_lt {n : ℕ} {i : ℤ} {k : ℕ} (h : pyIdx n i = some k) : k < n := by
  unfold pyIdx at h
  split at h <;> rename_i h0
  · split at h <;> rename_i h1
    · cases h; omega
    · cases h
  · split at h <;> rename_i h1
    · cases h; omega
    · cases h

/-! ### List helpers -/

/-- Apply a fallible modification to the `n`-th element of a list; fails if
the index is out of range or the modification fails. -/
def modifyAt (f : α → Option α) : ℕ → List α → Option (List α)
  | _, [] => none
  | 0, a :: l => (f a).map (· :: l)
  | n+1, a :: l => (modifyAt f n l).map (a :: ·)

theorem modifyAt_length {f : α → Option α} :
    ∀ {n : ℕ} {l l' : List α}, modifyAt f n l = some l' →
      l'.length = l.length := by
  intro n
  induction n with
  | zero =>
    intro l l' h
    cases l with
    | nil => cases h
    | cons a t =>
      simp only [modifyAt, Option.map_eq_some'] at h
      obtain ⟨b, _, rfl⟩ := h
      simp
  | succ n ih =>
    intro l l' h
    cases l with
    | nil => cases h
    | cons a t =>
      simp only [modifyAt, Option.map_eq_some'] at h
      obtain ⟨t', ht, rfl⟩ := h
      simp [ih ht]

theorem modifyAt_get_eq {f : α → Option α} :
    ∀ {n : ℕ} {l l' : List α}, modifyAt f n l = some l' →
      ∃ a b, l.get? n = some a ∧ f a = some b ∧ l'.get? n = some b := by
  intro n
  induction n with
  | zero =>
    intro l l' h
    cases l with
    | nil => cases h
    | cons a t =>
      simp only [modifyAt, Option.map_eq_some'] at h
      obtain ⟨b, hb, rfl⟩ := h
      exact ⟨a, b, rfl, hb, rfl⟩
  | succ n ih =>
    intro l l' h
    cases l with
    | nil => cases h
    | cons a t =>
      simp only [modifyAt, Option.map_eq_some'] at h
      obtain ⟨t', ht, rfl⟩ := h
      obtain ⟨x, y, h1, h2, h3⟩ := ih ht
      exact ⟨x, y, h1, h2, h3⟩

theorem modifyAt_get_ne {f : α → Option α} :
    ∀ {n : ℕ} {l l' : List α}, modifyAt f n l = some l' →
      ∀ m, m ≠ n → l'.get? m = l.get? m := by
  intro n
  induction n with
  | zero =>
    intro l l' h m hm
    cases l with
    | nil => cases h
    | cons a t =>
      simp only [modifyAt, Option.map_eq_some'] at h
      obtain ⟨b, _, rfl⟩ := h
      cases m with
      | zero => exact absurd rfl hm
      | succ m => simp
  | succ n ih =>
    intro l l' h m hm
    cases l with
    | nil => cases h
    | cons a t =>
      simp only [modifyAt, Option.map_eq_some'] at h
      obtain ⟨t', ht, rfl⟩ := h
      cases m with
      | zero => simp
      | succ m => simpa using ih ht m (by omega)

/-! ### Objects (`core.py` `Object`, `objects.py` `SimplePhysicsObject`)

A single record models both classes; `phys = true` marks a
`SimplePhysicsObject`.  The `oid` field models Python object identity. -/

structure Obj where
  oid : ℕ
  x : ℚ := 0
  y : ℚ := 0
  angle : ℚ := 0
  scale : ℚ := 1
  isBody : Bool := false
  agent : Option ℕ := none
  phys : Bool := false
  vel : ℚ := 0
  velx : ℚ := 0
  vely : ℚ := 0
  angVel : ℚ := 0
deriving DecidableEq, Repr

/-- `Object.__init__(x, y, angle)`: the angle is stored raw, `_is_body` is
`False` and `_agent` is `None`. -/
def Obj.init (oid : ℕ) (x y angle : ℚ) : Obj :=
  { oid := oid, x := x, y := y, angle := angle }

/-- The first `while` loop of the angle setter: `while value > 360:
value -= 360`. -/
def normDown (v : ℚ) : ℚ :=
  if 360 < v then normDown (v - 360) else v
termination_by (⌈v⌉ - 360).toNat
decreasing_by
  rename_i h
  have h1 : (361 : ℚ) ≤ (⌈v⌉ : ℚ) := by
    have := Int.le_ceil v
    have h2 : (360 : ℤ) < ⌈v⌉ := by
      by_contra hc
      push_neg at hc
      have : (⌈v⌉ : ℚ) ≤ 360 := by exact_mod_cast hc
      linarith
    exact_mod_cast h2
  have h2 : (361 : ℤ) ≤ ⌈v⌉ := by exact_mod_cast h1
  have h3 : ⌈v - (360 : ℤ)⌉ = ⌈v⌉ - 360 := Int.ceil_sub_int v 360
  push_cast at h3
  rw [h3]
  omega

/-- The second `while` loop of the angle setter: `while value < 0:
value += 360`. -/
def normUp (v : ℚ) : ℚ :=
  if v < 0 then normUp (v + 360) else v
termination_by (-⌊v⌋).toNat
decreasing_by
  rename_i h
  have h1 : ⌊v⌋ < 0 := by
    by_contra hc
    push_neg at hc
    have : (0 : ℚ) ≤ (⌊v⌋ : ℚ) := by exact_mod_cast hc
    have := Int.floor_le v
    linarith
  have h3 : ⌊v + (360 : ℤ)⌋ = ⌊v⌋ + 360 := Int.floor_add_int v 360
  push_cast at h3
  rw [h3]
  omega

/-- The normalisation performed by the `angle` setters of `Object` and
`SimplePhysicsObject`. -/
def normAngle (v : ℚ) : ℚ := normUp (normDown v)

theorem normDown_le_360 (v : ℚ) : normDown v ≤ 360 := by
  unfold normDown
  split <;> rename_i h
  · exact normDown_le_360 (v - 360)
  · linarith
termination_by (⌈v⌉ - 360).toNat
decreasing_by
  have h1 : (361 : ℚ) ≤ (⌈v⌉ : ℚ) := by
    have := Int.le_ceil v
    have h2 : (360 : ℤ) < ⌈v⌉ := by
      by_contra hc
      push_neg at hc
      have : (⌈v⌉ : ℚ) ≤ 360 := by exact_mod_cast hc
      linarith
    exact_mod_cast h2
  have h2 : (361 : ℤ) ≤ ⌈v⌉ := by exact_mod_cast h1
  have h3 : ⌈v - (360 : ℤ)⌉ = ⌈v⌉ - 360 := Int.ceil_sub_int v 360
  push_cast at h3
  rw [h3]
  omega

theorem normUp_nonneg (v : ℚ) : 0 ≤ normUp v := by
  unfold normUp
  split <;> rename_i h
  · exact normUp_nonneg (v + 360)
  · linarith
termination_by (-⌊v⌋).toNat
decreasing_by
  have h1 : ⌊v⌋ < 0 := by
    by_contra hc
    push_neg at hc
    have : (0 : ℚ) ≤ (⌊v⌋ : ℚ) := by exact_mod_cast hc
    have := Int.floor_le v
    linarith
  have h3 : ⌊v + (360 : ℤ)⌋ = ⌊v⌋ + 360 := Int.floor_add_int v 360
  push_cast at h3
  rw [h3]
  omega

theorem normUp_le_360 (v : ℚ) (hv : v ≤ 360) : normUp v ≤ 360 := by
  unfold normUp
  split <;> rename_i h
  · exact normUp_le_360 (v + 360) (by linarith)
  · exact hv
termination_by (-⌊v⌋).toNat
decreasing_by
  have h1 : ⌊v⌋ < 0 := by
    by_contra hc
    push_neg at hc
    have : (0 : ℚ) ≤ (⌊v⌋ : ℚ) := by exact_mod_cast hc
    have := Int.floor_le v
    linarith
  have h3 : ⌊v + (360 : ℤ)⌋ = ⌊v⌋ + 360 := Int.floor_add_int v 360
  push_cast at h3
  rw [h3]
  omega

theorem normAngle_nonneg (v : ℚ) : 0 ≤ normAngle v := normUp_nonneg _

theorem normAngle_le_360 (v : ℚ) : normAngle v ≤ 360 :=
  normUp_le_360 _ (normDown_le_360 v)

/-- `SimplePhysicsObject.velocity` setter: recompute the velocity components
from the current angle.  `cosDeg a` and `sinDeg a` stand for
`math.cos(a * DEG2RAD)` and `math.sin(a * DEG2RAD)`. -/
def Obj.setVelocity (cosDeg sinDeg : ℚ → ℚ) (o : Obj) (v : ℚ) : Obj :=
  { o with velx := v * cosDeg o.angle, vely := v * sinDeg o.angle, vel := v }

/-- The `angle` setter: `Object.angle` normalises and stores; the
`SimplePhysicsObject` override additionally re-sets the velocity. -/
def Obj.setAngle (cosDeg sinDeg : ℚ → ℚ) (o : Obj) (v : ℚ) : Obj :=
  if o.phys then
    Obj.setVelocity cosDeg sinDeg { o with angle := normAngle v } o.vel
  else { o with angle := normAngle v }

/-- `Object.rotate(angle)`: add to the current angle through the setter. -/
def Obj.rotate (cosDeg sinDeg : ℚ → ℚ) (o : Obj) (d : ℚ) : Obj :=
  o.setAngle cosDeg sinDeg (o.angle + d)

/-- `Object.update` is a no-op; `SimplePhysicsObject.update` integrates the
angular velocity through the angle setter (only when it is nonzero) and then
the linear velocity. -/
def Obj.update (cosDeg sinDeg : ℚ → ℚ) (δ : ℚ) (o : Obj) : Obj :=
  if o.phys then
    let o1 := if o.angVel ≠ 0 then o.setAngle cosDeg sinDeg (o.angle + o.angVel * δ)
              else o
    { o1 with x := o1.x + o1.velx * δ, y := o1.y + o1.vely * δ }
  else o

/-- `Object.agent` setter: `None` clears the body flag and the reference,
anything else sets both. -/
def Obj.setAgent (o : Obj) (a : Option ℕ) : Obj :=
  match a with
  | none => { o with isBody := false, agent := none }
  | some i => { o with isBody := true, agent := some i }

theorem setAngle_angle (cosDeg sinDeg : ℚ → ℚ) (o : Obj) (v : ℚ) :
    (o.setAngle cosDeg sinDeg v).angle = normAngle v := by
  unfold Obj.setAngle Obj.setVelocity
  split <;> rfl

/-! ### Agents (`core.py` `Agent`) -/

structure AgentM where
  aid : ℕ
  bodyId : Option ℕ := none
  dead : Bool := false
  keepBody : Bool := false
  percs : List ℚ := []
deriving DecidableEq, Repr

/-- `Agent.body` setter: store the body and, when it is not `None`, set the
body's `agent` back-reference (which also raises its `is_body` flag).  The
returned pair is the updated agent record and the updated body object (or
`none` when no object was touched). -/
def AgentM.setBody (ag : AgentM) (v : Option Obj) : AgentM × Option Obj :=
  ({ ag with bodyId := v.map Obj.oid }, v.map (fun b => b.setAgent (some ag.aid)))

/-- C9: every assignment through the `angle` setter — directly, via
`Object.rotate`, or via `SimplePhysicsObject.update` with nonzero angular
velocity — leaves the stored angle in the closed interval `[0, 360]`, for
every rational input value. -/
theorem C9_angle_setter_normalizes (cosDeg sinDeg : ℚ → ℚ) (o : Obj) (v δ : ℚ) :
    (0 ≤ (o.setAngle cosDeg sinDeg v).angle ∧
      (o.setAngle cosDeg sinDeg v).angle ≤ 360) ∧
    (0 ≤ (o.rotate cosDeg sinDeg v).angle ∧
      (o.rotate cosDeg sinDeg v).angle ≤ 360) ∧
    (o.phys = true → o.angVel ≠ 0 →
      0 ≤ (Obj.update cosDeg sinDeg δ o).angle ∧
        (Obj.update cosDeg sinDeg δ o).angle ≤ 360) := by
  refine ⟨?_, ?_, ?_⟩
  · rw [setAngle_angle]
    exact ⟨normAngle_nonneg _, normAngle_le_360 _⟩
  · unfold Obj.rotate
    rw [setAngle_angle]
    exact ⟨normAngle_nonneg _, normAngle_le_360 _⟩
  · intro hphys hvel
    unfold Obj.update
    rw [if_pos hphys, if_pos hvel]
    simp only [setAngle_angle]
    exact ⟨normAngle_nonneg _, normAngle_le_360 _⟩

/-- Concrete physics object used to witness C9. -/
def objC9 : Obj := { oid := 0, angle := 3600, phys := true, angVel := 1 }

theorem C9_witness :
    0 ≤ (Obj.update (fun _ => 1) (fun _ => 0) 1 objC9).angle ∧
      (Obj.update (fun _ => 1) (fun _ => 0) 1 objC9).angle ≤ 360 :=
  (C9_angle_setter_normalizes (fun _ => 1) (fun _ => 0) objC9 0 1).2.2 rfl
    (by norm_num [objC9])

/-- C10: assigning a non-`None` body through the `Agent.body` setter stores
the body reference and establishes the back-reference (`agent` points back to
the agent, `is_body` is raised); setting an object's `agent` field to `None`
clears both; and for every write through the `agent` setter, as well as for a
freshly constructed object, `is_body` is `true` exactly when the `agent`
field is non-`None`. -/
theorem C10_body_backref (ag : AgentM) (b o : Obj) (a : Option ℕ) (oid : ℕ)
    (x y ang : ℚ) :
    ((AgentM.setBody ag (some b)).1.bodyId = some b.oid) ∧
    ((AgentM.setBody ag (some b)).2 = some (b.setAgent (some ag.aid))) ∧
    ((b.setAgent (some ag.aid)).agent = some ag.aid) ∧
    ((b.setAgent (some ag.aid)).isBody = true) ∧
    ((o.setAgent none).agent = none) ∧
    ((o.setAgent none).isBody = false) ∧
    ((o.setAgent a).isBody = true ↔ (o.setAgent a).agent ≠ none) ∧
    ((Obj.init oid x y ang).isBody = true ↔
      (Obj.init oid x y ang).agent ≠ none) := by
  cases a <;> simp [AgentM.setBody, Obj.setAgent, Obj.init]

/-! ### Influence maps (`influence.py`)

An influence emitter carries its position and its value function; `val x y`
models `influence.get_value(x, y)` (the dispatch through `self.func`). -/

structure Influence where
  x : ℚ
  y : ℚ
  val : ℚ → ℚ → ℚ

structure InfluenceMap where
  width : ℚ
  height : ℚ
  sector : ℚ
  maximum : ℚ := 1
  mapWidth : ℕ
  mapHeight : ℕ
  imap : List (List ℚ)
  ilist : List Influence
  dirty : Bool := true

/-- `self._imap[y][x] = v`: write one cell of the 2D array (the indices are
in range whenever they come from the source's loops over a well-formed
map). -/
def set2 (rows : List (List ℚ)) (y x : ℕ) (v : ℚ) : List (List ℚ) :=
  match rows.get? y with
  | some row => rows.set y (row.set x v)
  | none => rows

/-- `self._imap[y][x]`: read one cell of the 2D array. -/
def get2 (rows : List (List ℚ)) (y x : ℕ) : Option ℚ :=
  (rows.get? y).bind (·.get? x)

/-- The value computed for one cell by `InfluenceMap.update`: the running
sum `a` of `i.get_value(x*sector + sector/2, y*sector + sector/2)` over the
placed influences, then `if a > self.maximum: a = self.maximum`. -/
def cellValue (m : InfluenceMap) (x y : ℕ) : ℚ :=
  let a := m.ilist.foldl
    (fun acc i => acc + i.val ((x : ℚ) * m.sector + m.sector / 2)
                            ((y : ℚ) * m.sector + m.sector / 2)) 0
  if a > m.maximum then m.maximum else a

/-- `InfluenceMap.update`: loop over all cells, writing each one, then mark
the map dirty. -/
def imUpdate (m : InfluenceMap) : InfluenceMap :=
  { m with
    imap := (List.range m.mapHeight).foldl
      (fun rows y => (List.range m.mapWidth).foldl
        (fun rows x => set2 rows y x (cellValue m x y)) rows) m.imap,
    dirty := true }

/-- `InfluenceMap.place(influence, update)`: accept the influence iff its
position lies within the closed bounds of the map, then update if asked. -/
def imPlace (m : InfluenceMap) (i : Influence) (upd : Bool) : InfluenceMap :=
  if 0 ≤ i.x ∧ i.x ≤ m.width ∧ 0 ≤ i.y ∧ i.y ≤ m.height then
    let m' := { m with ilist := m.ilist ++ [i] }
    if upd then imUpdate m' else m'
  else m

/-- `InfluenceMap.get_value(x, y)`: read the sector holding `(x, y)` when the
point is strictly inside the map, `0.0` otherwise. -/
def imGetValue (m : InfluenceMap) (x y : ℚ) : Option ℚ :=
  if 0 < x ∧ x < m.width ∧ 0 < y ∧ y < m.height then
    get2 m.imap ⌊y / m.sector⌋.toNat ⌊x / m.sector⌋.toNat
  else some 0

theorem set2_length (rows : List (List ℚ)) (y x : ℕ) (v : ℚ) :
    (set2 rows y x v).length = rows.length := by
  unfold set2
  split <;> simp

theorem set2_rowlen {w : ℕ} {rows : List (List ℚ)}
    (h : ∀ row ∈ rows, row.length = w) (y x : ℕ) (v : ℚ) :
    ∀ row ∈ set2 rows y x v, row.length = w := by
  unfold set2
  split <;> rename_i heq
  · rename_i r
    intro row hrow
    rcases List.mem_or_eq_of_mem_set hrow with h1 | h1
    · exact h row h1
    · subst h1
      rw [List.length_set]
      exact h r (List.get?_mem heq)
  · exact h

theorem set2_get_ne (rows : List (List ℚ)) {y y' : ℕ} (h : y' ≠ y) (x : ℕ)
    (v : ℚ) : (set2 rows y x v).get? y' = rows.get? y' := by
  unfold set2
  split
  · exact List.get?_set_ne _ _ (fun hc => h hc.symm)
  · rfl

theorem set2_get_eq {rows : List (List ℚ)} {y : ℕ} {row : List ℚ}
    (h : rows.get? y = some row) (x : ℕ) (v : ℚ) :
    (set2 rows y x v).get? y = some (row.set x v) := by
  unfold set2
  rw [h]
  have hy : y < rows.length := (List.get?_eq_some.mp h).1
  exact List.get?_set_eq_of_lt _ hy

theorem set2_get2_ne_col (rows : List (List ℚ)) (y x : ℕ) (v : ℚ) {x0 : ℕ}
    (h : x ≠ x0) : get2 (set2 rows y x v) y x0 = get2 rows y x0 := by
  unfold get2
  cases heq : rows.get? y with
  | none =>
    unfold set2
    rw [heq]
    show (rows.get? y).bind (fun l : List ℚ => l.get? x0) =
      Option.bind none (fun l : List ℚ => l.get? x0)
    rw [heq]
  | some row =>
    unfold set2
    have hy : y < rows.length := (List.get?_eq_some.mp heq).1
    simp only [heq]
    rw [List.get?_set_eq_of_lt _ hy]
    simp only [Option.some_bind]
    exact List.get?_set_ne _ _ h

theorem innerFold_rowlen {w : ℕ} (f : ℕ → ℚ) (y : ℕ) :
    ∀ (xs : List ℕ) (rows : List (List ℚ)),
      (∀ row ∈ rows, row.length = w) →
      ∀ row ∈ xs.foldl (fun r x => set2 r y x (f x)) rows, row.length = w := by
  intro xs
  induction xs with
  | nil => intro rows h; exact h
  | cons x rest ih =>
    intro rows h
    exact ih _ (set2_rowlen h y x (f x))

theorem innerFold_get_ne (f : ℕ → ℚ) (y : ℕ) {y' : ℕ} (h : y' ≠ y) :
    ∀ (xs : List ℕ) (rows : List (List ℚ)),
      (xs.foldl (fun r x => set2 r y x (f x)) rows).get? y' = rows.get? y' := by
  intro xs
  induction xs with
  | nil => intro rows; rfl
  | cons x rest ih =>
    intro rows
    rw [List.foldl_cons, ih, set2_get_ne _ h]

theorem innerFold_get2_notMem (f : ℕ → ℚ) (y : ℕ) {x0 : ℕ} :
    ∀ (xs : List ℕ), x0 ∉ xs → ∀ (rows : List (List ℚ)),
      get2 (xs.foldl (fun r x => set2 r y x (f x)) rows) y x0 = get2 rows y x0 := by
  intro xs
  induction xs with
  | nil => intro _ rows; rfl
  | cons x rest ih =>
    intro hx rows
    have hx1 : x ≠ x0 := by
      intro hc
      exact hx (by rw [← hc]; exact List.mem_cons_self _ _)
    have hx2 : x0 ∉ rest := fun hc => hx (List.mem_cons_of_mem _ hc)
    rw [List.foldl_cons, ih hx2, set2_get2_ne_col _ _ _ _ hx1]

theorem innerFold_get2 {w : ℕ} (f : ℕ → ℚ) (y : ℕ) :
    ∀ (xs : List ℕ), xs.Nodup → ∀ {x0 : ℕ}, x0 ∈ xs →
      ∀ (rows : List (List ℚ)) (row : List ℚ), rows.get? y = some row →
        row.length = w → x0 < w →
        get2 (xs.foldl (fun r x => set2 r y x (f x)) rows) y x0 = some (f x0) := by
  intro xs
  induction xs with
  | nil => intro _ x0 hx0; cases hx0
  | cons x rest ih =>
    intro hnd x0 hx0 rows row hrow hlen hxw
    rw [List.foldl_cons]
    have hrow' : (set2 rows y x (f x)).get? y = some (row.set x (f x)) :=
      set2_get_eq hrow x (f x)
    rcases List.mem_cons.mp hx0 with rfl | hmem
    · have hnotin : x0 ∉ rest := (List.nodup_cons.mp hnd).1
      rw [innerFold_get2_notMem f y rest hnotin]
      unfold get2
      rw [hrow']
      simp only [Option.some_bind]
      rw [List.get?_set_eq_of_lt _ (by omega)]
    · exact ih (List.nodup_cons.mp hnd).2 hmem _ (row.set x (f x)) hrow'
        (by simp [hlen]) hxw

theorem outerFold_get_notMem (f : ℕ → ℕ → ℚ) (w : ℕ) {y0 : ℕ} :
    ∀ (ys : List ℕ), y0 ∉ ys → ∀ (rows : List (List ℚ)),
      ((ys.foldl (fun r y => (List.range w).foldl
        (fun r' x => set2 r' y x (f x y)) r) rows)).get? y0 = rows.get? y0 := by
  intro ys
  induction ys with
  | nil => intro _ rows; rfl
  | cons y rest ih =>
    intro hy rows
    have hy1 : y0 ≠ y := by
      intro hc
      exact hy (by rw [hc]; exact List.mem_cons_self _ _)
    have hy2 : y0 ∉ rest := fun hc => hy (List.mem_cons_of_mem _ hc)
    rw [List.foldl_cons, ih hy2, innerFold_get_ne _ _ hy1]

theorem outerFold_get2 {w : ℕ} (f : ℕ → ℕ → ℚ) :
    ∀ (ys : List ℕ), ys.Nodup → ∀ {y0 : ℕ}, y0 ∈ ys → ∀ {x0 : ℕ}, x0 < w →
      ∀ (rows : List (List ℚ)), (∀ row ∈ rows, row.length = w) →
        ∀ (row : List ℚ), rows.get? y0 = some row →
        get2 (ys.foldl (fun r y => (List.range w).foldl
          (fun r' x => set2 r' y x (f x y)) r) rows) y0 x0 = some (f x0 y0) := by
  intro ys
  induction ys with
  | nil => intro _ y0 hy0; cases hy0
  | cons y rest ih =>
    intro hnd y0 hy0 x0 hxw rows hWF row hrow
    rw [List.foldl_cons]
    rcases List.mem_cons.mp hy0 with rfl | hmem
    · have hnotin : y0 ∉ rest := (List.nodup_cons.mp hnd).1
      have hval := innerFold_get2 (w := w) (fun x => f x y0) y0 (List.range w)
        (List.nodup_range w) (List.mem_range.mpr hxw) rows row hrow
        (hWF row (List.get?_mem hrow)) hxw
      unfold get2 at hval ⊢
      rw [outerFold_get_notMem f w rest hnotin]
      exact hval
    · have hne : y0 ≠ y := by
        intro hc
        exact (List.nodup_cons.mp hnd).1 (hc ▸ hmem)
      have hrow2 : ((List.range w).foldl
          (fun r' x => set2 r' y x (f x y)) rows).get? y0 = some row := by
        rw [innerFold_get_ne (fun x => f x y) y hne (List.range w) rows]
        exact hrow
      exact ih (List.nodup_cons.mp hnd).2 hmem hxw _
        (innerFold_rowlen _ _ _ _ hWF) row hrow2

theorem foldl_add_map (g : Influence → ℚ) :
    ∀ (l : List Influence) (c : ℚ),
      l.foldl (fun a i => a + g i) c = c + (l.map g).sum := by
  intro l
  induction l with
  | nil => intro c; simp
  | cons i rest ih =>
    intro c
    rw [List.foldl_cons, ih]
    simp [add_assoc]

/-- C7: after `InfluenceMap.update()` on a well-formed map, every grid cell
`[y][x]` holds the sum over all placed influences of the influence's value at
the cell's centre `(x*sector + sector/2, y*sector + sector/2)`, capped above
at the map's maximum. -/
theorem C7_update_cells (m : InfluenceMap)
    (hh : m.imap.length = m.mapHeight)
    (hw : ∀ row ∈ m.imap, row.length = m.mapWidth)
    (y x : ℕ) (hy : y < m.mapHeight) (hx : x < m.mapWidth) :
    get2 (imUpdate m).imap y x =
      some (min ((m.ilist.map (fun i =>
        i.val ((x : ℚ) * m.sector + m.sector / 2)
              ((y : ℚ) * m.sector + m.sector / 2))).sum) m.maximum) := by
  have hrow : ∃ row, m.imap.get? y = some row := by
    rw [← hh] at hy
    cases heq : m.imap.get? y with
    | none =>
      exfalso
      exact absurd heq (by simp [List.get?_eq_none, not_le, hy])
    | some row => exact ⟨row, rfl⟩
  obtain ⟨row, hrow⟩ := hrow
  have h := outerFold_get2 (w := m.mapWidth)
    (fun x y => cellValue m x y) (List.range m.mapHeight)
    (List.nodup_range _) (List.mem_range.mpr hy) hx m.imap hw row hrow
  unfold imUpdate
  simp only at h ⊢
  rw [h]
  congr 1
  unfold cellValue
  rw [foldl_add_map]
  rw [zero_add]
  rcases le_or_lt ((m.ilist.map (fun i =>
      i.val ((x : ℚ) * m.sector + m.sector / 2)
            ((y : ℚ) * m.sector + m.sector / 2))).sum) m.maximum with hle | hlt
  · rw [if_neg (not_lt.mpr hle), min_eq_left hle]
  · rw [if_pos hlt, min_eq_right (le_of_lt hlt)]

/-- Concrete map and influence used to witness C7. -/
def mapC7 : InfluenceMap :=
  { width := 2, height := 2, sector := 2, maximum := 1, mapWidth := 1,
    mapHeight := 1, imap := [[0]],
    ilist := [{ x := 1, y := 1, val := fun _ _ => 2 }], dirty := true }

theorem C7_witness :
    get2 (imUpdate mapC7).imap 0 0 =
      some (min ((mapC7.ilist.map (fun i =>
        i.val ((0 : ℚ) * mapC7.sector + mapC7.sector / 2)
              ((0 : ℚ) * mapC7.sector + mapC7.sector / 2))).sum) mapC7.maximum) :=
  C7_update_cells mapC7 (by simp [mapC7]) (by simp [mapC7]) 0 0
    (by norm_num [mapC7]) (by norm_num [mapC7])

/-- C8: `InfluenceMap.get_value(x, y)` returns `0.0` for every point on or
outside the map boundary (the interior test is strict), while `place`
accepts influence emitters located exactly on the boundary (its test is
non-strict), so a boundary query is answered without reading the map
array. -/
theorem C8_boundary_query (m : InfluenceMap) (x y : ℚ) (i : Influence) :
    ((x ≤ 0 ∨ m.width ≤ x ∨ y ≤ 0 ∨ m.height ≤ y) →
      imGetValue m x y = some 0) ∧
    (0 ≤ i.x → i.x ≤ m.width → 0 ≤ i.y → i.y ≤ m.height →
      (imPlace m i false).ilist = m.ilist ++ [i]) := by
  constructor
  · intro h
    unfold imGetValue
    rw [if_neg]
    push_neg
    intro h1 h2 h3
    rcases h with h | h | h | h
    · exact absurd h1 (not_lt.mpr h)
    · exact absurd h2 (not_lt.mpr h)
    · exact absurd h3 (not_lt.mpr h)
    · exact h
  · intro h1 h2 h3 h4
    unfold imPlace
    rw [if_pos ⟨h1, h2, h3, h4⟩]
    rfl

/-- Concrete influence on the exact corner of the map, used to witness C8. -/
def infC8 : Influence := { x := 2, y := 2, val := fun _ _ => 1 }

theorem C8_witness :
    imGetValue mapC7 2 1 = some 0 ∧
      (imPlace mapC7 infC8 false).ilist = mapC7.ilist ++ [infC8] :=
  ⟨(C8_boundary_query mapC7 2 1 infC8).1 (Or.inr (Or.inl (by norm_num [mapC7]))),
    (C8_boundary_query mapC7 2 1 infC8).2 (by norm_num [infC8])
      (by norm_num [infC8, mapC7]) (by norm_num [infC8])
      (by norm_num [infC8, mapC7])⟩

/-! ### Worlds (`core.py` `World`, `World2D`, `World2DGrid`)

The world's object list doubles as the heap: an agent's `bodyId` refers to
the entry with that `oid`.  User-supplied behaviour is abstracted by two
function parameters: `perceive a b` models running `p.update(agent)` over
the agent's perceptions (the new perception values, reading the agent and
its body), and `think a δ` models `Agent._think(delta)`, returning the
actions as body transformations to be executed in order.  Executing an
action mutates the body in place, so it cannot change the body's
identity. -/

def findObj (objs : List Obj) (bid : ℕ) : Option Obj :=
  objs.find? (fun o => o.oid == bid)

def replaceObj (objs : List Obj) (bid : ℕ) (o' : Obj) : List Obj :=
  objs.map (fun p => if p.oid = bid then o' else p)

/-- Execute a list of actions on a body, in order; each action mutates the
object in place (its identity is untouched). -/
def applyActs (fs : List (Obj → Obj)) (o : Obj) : Obj :=
  fs.foldl (fun b f => { f b with oid := b.oid }) o

/-- `body.agent = None` in `_remove_dead_agents`: clear the body's agent
back-reference and `is_body` flag on the object with identity `bid`. -/
def clearedBody (objs : List Obj) (bid : ℕ) : List Obj :=
  objs.map (fun o =>
    if o.oid = bid then { o with agent := none, isBody := false } else o)


section WorldModel

variable (cosDeg sinDeg : ℚ → ℚ) (perceive : AgentM → Option Obj → List ℚ)
  (think : AgentM → ℚ → List (Obj → Obj))

/-- `Agent._update_perceptions()`: refresh all perception values. -/
def refreshAgent (a : AgentM) (b : Option Obj) : AgentM :=
  { a with percs := perceive a b }

/-- The effect of one `Agent.update(delta)` on the agent's body: perceptions
are refreshed first, then every action returned by `_think` is executed in
order. -/
def agentBodyStep (δ : ℚ) (a : AgentM) (o : Obj) : Obj :=
  applyActs (think (refreshAgent perceive a (some o)) δ) o

structure WorldSt where
  agents : List AgentM := []
  deadAgents : List AgentM := []
  objects : List Obj := []
  paused : Bool := true
deriving DecidableEq

/-- `World.process_agents(delta)`: walk the agent list; update each live
agent (which may move its body), collect the dead ones.  Returns the new
agent list, the new object list and the list of agents found dead. -/
def processAgentsGo (δ : ℚ) :
    List AgentM → List Obj → List AgentM × List Obj × List AgentM
  | [], objs => ([], objs, [])
  | a :: rest, objs =>
    if a.dead then
      let r := processAgentsGo δ rest objs
      (a :: r.1, r.2.1, a :: r.2.2)
    else
      match a.bodyId.bind (findObj objs) with
      | some o =>
        let a' := refreshAgent perceive a (some o)
        let o' := applyActs (think a' δ) o
        let r := processAgentsGo δ rest (replaceObj objs o.oid o')
        (a' :: r.1, r.2.1, r.2.2)
      | none =>
        let a' := refreshAgent perceive a none
        let r := processAgentsGo δ rest objs
        (a' :: r.1, r.2.1, r.2.2)

def worldProcessAgents (δ : ℚ) (st : WorldSt) : WorldSt :=
  let r := processAgentsGo perceive think δ st.agents st.objects
  { st with agents := r.1, objects := r.2.1,
            deadAgents := st.deadAgents ++ r.2.2 }

/-- `World.add_object(obj)` (the argument is always an `Object` here). -/
def worldAddObject (st : WorldSt) (o : Obj) : WorldSt :=
  { st with objects := st.objects ++ [o] }

/-- `World.remove_object(obj)`: remove only a non-body object that is
present; otherwise just print a warning. -/
def worldRemoveObject (st : WorldSt) (o : Obj) : WorldSt :=
  if o.isBody = false ∧ o.oid ∈ st.objects.map Obj.oid then
    { st with objects := st.objects.eraseP (fun p => p.oid == o.oid) }
  else st

/-- The condition under which `World.remove_object` prints its console
warning. -/
def removeObjectWarns (objs : List Obj) (o : Obj) : Bool :=
  o.isBody || !(objs.any (fun p => p.oid == o.oid))

/-- `World._remove_agent(agent)`: remove the agent when present; otherwise
just print a warning. -/
def worldRemoveAgent (st : WorldSt) (a : AgentM) : WorldSt :=
  if a.aid ∈ st.agents.map AgentM.aid then
    { st with agents := st.agents.eraseP (fun p => p.aid == a.aid) }
  else st

/-- The condition under which `World._remove_agent` prints its console
warning. -/
def removeAgentWarns (agents : List AgentM) (a : AgentM) : Bool :=
  !(agents.any (fun p => p.aid == a.aid))

/-- One iteration of `World._remove_dead_agents`: `_remove_agent(a)`, then
`body = a.body; a.body = None; body.agent = None` (an `AttributeError`, i.e.
`none`, when the agent has no body), then `remove_object(body)` unless the
agent keeps its body on death. -/
def removeDeadOne (st : WorldSt) (a : AgentM) : Option WorldSt :=
  match a.bodyId with
  | none => none
  | some bid =>
    if a.keepBody then
      some { st with agents := (worldRemoveAgent st a).agents,
                     objects := clearedBody st.objects bid }
    else
      some { st with agents := (worldRemoveAgent st a).agents,
                     objects := (clearedBody st.objects bid).eraseP
                       (fun p => p.oid == bid) }

/-- `World._remove_dead_agents()`: process the collected dead agents, then
clear the collection list. -/
def removeDeadAgents (st : WorldSt) : Option WorldSt := do
  let st' ← List.foldlM removeDeadOne st st.deadAgents
  some { st' with deadAgents := [] }

/-- `World.update(delta)`: when not paused, process the agents, update every
object, and remove the dead agents. -/
def worldUpdate (δ : ℚ) (st : WorldSt) : Option WorldSt :=
  if st.paused then some st
  else
    let st1 := worldProcessAgents perceive think δ st
    let st2 := { st1 with
      objects := st1.objects.map (Obj.update cosDeg sinDeg δ) }
    removeDeadAgents st2

structure World2DSt extends WorldSt where
  width : ℚ := 500
  height : ℚ := 500
deriving DecidableEq

/-- The bounds check of `World2D.update`: four sequential conditional
assignments clamping the coordinates. -/
def clamp2D (w h : ℚ) (o : Obj) : Obj :=
  let x1 := if o.x > w then w else o.x
  let y1 := if o.y > h then h else o.y
  let x2 := if x1 < 0 then 0 else x1
  let y2 := if y1 < 0 then 0 else y1
  { o with x := x2, y := y2 }

/-- `World2D.update(delta)`: like `World.update`, but each object is clamped
to the world bounds right after its own update. -/
def world2DUpdate (δ : ℚ) (st : World2DSt) : Option World2DSt :=
  if st.paused then some st
  else
    let st1 := worldProcessAgents perceive think δ st.toWorldSt
    let st2 := { st1 with objects := st1.objects.map (fun o =>
      clamp2D st.width st.height (Obj.update cosDeg sinDeg δ o)) }
    (removeDeadAgents st2).map (fun st3 => { st with toWorldSt := st3 })

end WorldModel

/-! ### The grid world (`core.py` `World2DGrid`)

The grid `_grid` is a height×width array of cell lists; a cell holds the
identities of the objects placed there.  Indexing follows Python list
semantics (`pyIdx`): negative indices count from the end, and an index out
of range raises `IndexError` (`none`). -/

abbrev Grid := List (List (List ℕ))

/-- Resolve `(r, c)` against the grid and modify that cell with `f`. -/
def gridModify (f : List ℕ → Option (List ℕ)) (g : Grid) (r c : ℤ) :
    Option Grid := do
  let ri ← pyIdx g.length r
  modifyAt (fun row => do
    let ci ← pyIdx row.length c
    modifyAt f ci row) ri g

/-- `self._grid[r][c].remove(i)`: `ValueError` (`none`) when absent. -/
def gridCellRemove (g : Grid) (r c : ℤ) (i : ℕ) : Option Grid :=
  gridModify (fun cell => if i ∈ cell then some (cell.erase i) else none) g r c

/-- `self._grid[r][c].append(i)`. -/
def gridCellAppend (g : Grid) (r c : ℤ) (i : ℕ) : Option Grid :=
  gridModify (fun cell => some (cell ++ [i])) g r c

/-- `self._grid[r][c]`, with Python index resolution. -/
def pyCellGet (g : Grid) (r c : ℤ) : Option (List ℕ) := do
  let ri ← pyIdx g.length r
  let row ← g.get? ri
  let ci ← pyIdx row.length c
  row.get? ci

/-- Total number of occurrences of the id `i` in all grid cells. -/
def gridCount (g : Grid) (i : ℕ) : ℕ :=
  (g.map (fun row => (row.map (fun cell => cell.count i)).sum)).sum

/-- The id `i` occurs somewhere in the grid. -/
def gridMem (g : Grid) (i : ℕ) : Prop :=
  ∃ row ∈ g, ∃ cell ∈ row, i ∈ cell

instance (g : Grid) (i : ℕ) : Decidable (gridMem g i) := by
  unfold gridMem
  infer_instance

/-- The object sits in the grid cell indexed by its rounded coordinates,
`_grid[round(obj.y)][round(obj.x)]`. -/
def objInCell (g : Grid) (o : Obj) : Prop :=
  o.oid ∈ (pyCellGet g (pyround o.y) (pyround o.x)).getD []

structure GridSt where
  gwidth : ℤ := 25
  gheight : ℤ := 25
  cell : ℚ := 20
  tor : Bool := false
  agents : List AgentM := []
  deadAgents : List AgentM := []
  objects : List Obj := []
  grid : Grid := []
  paused : Bool := true
deriving DecidableEq

/-- The non-toroidal bounds check of `World2DGrid` (`add_object` and
`update`): clamp to `[0, width-1]`, upper bound first. -/
def clampGrid (w : ℤ) (x : ℚ) : ℚ :=
  let x1 := if x > (w : ℚ) - 1 then (w : ℚ) - 1 else x
  if x1 < 0 then 0 else x1

/-- The toroidal bounds check of `World2DGrid` (`add_object` and `update`):
`if x > width - 0.5 or x < -0.5: x = round(x) % width`. -/
def torFix (w : ℤ) (x : ℚ) : ℚ :=
  if x > (w : ℚ) - 1/2 ∨ x < -(1/2) then ((pyround x % w : ℤ) : ℚ) else x

/-- The full bounds check applied to an object by `World2DGrid.add_object`
and `World2DGrid.update`. -/
def gridBoundsFix (tor : Bool) (w h : ℤ) (o : Obj) : Obj :=
  if tor = false then { o with x := clampGrid w o.x, y := clampGrid h o.y }
  else { o with x := torFix w o.x, y := torFix h o.y }

/-- `World2DGrid.add_object(obj)`: bounds-fix the object, append it to the
object list (`World.add_object`), then append it to
`_grid[round(obj.y)][round(obj.x)]`. -/
def gridAddObject (st : GridSt) (o : Obj) : Option GridSt :=
  let o' := gridBoundsFix st.tor st.gwidth st.gheight o
  (gridCellAppend st.grid (pyround o'.y) (pyround o'.x) o'.oid).map (fun g =>
    { st with objects := st.objects ++ [o'], grid := g })

/-- `World2DGrid.remove_object(obj)`: `World.remove_object` first (which
only removes a present non-body object, warning otherwise), then — for any
non-body object — remove it from its grid cell. -/
def gridRemoveObject (st : GridSt) (o : Obj) : Option GridSt :=
  let objects' := if o.isBody = false ∧ o.oid ∈ st.objects.map Obj.oid
    then st.objects.eraseP (fun p => p.oid == o.oid) else st.objects
  if o.isBody = false then
    (gridCellRemove st.grid (pyround o.y) (pyround o.x) o.oid).map (fun g =>
      { st with objects := objects', grid := g })
  else some { st with objects := objects' }

section GridModel

variable (cosDeg sinDeg : ℚ → ℚ) (perceive : AgentM → Option Obj → List ℚ)
  (think : AgentM → ℚ → List (Obj → Obj))

/-- `World2DGrid.process_agents(delta)`: for each live agent, remove its
body from the grid, run the agent's update, re-add the body at its new
rounded coordinates; collect agents that are dead (before or after their
update). -/
def gridProcessAgentsGo (δ : ℚ) :
    List AgentM → List Obj → Grid →
      Option (List AgentM × List Obj × Grid × List AgentM)
  | [], objs, g => some ([], objs, g, [])
  | a :: rest, objs, g =>
    if a.dead then do
      let r ← gridProcessAgentsGo δ rest objs g
      some (a :: r.1, r.2.1, r.2.2.1, a :: r.2.2.2)
    else do
      let bid ← a.bodyId
      let o ← findObj objs bid
      let g1 ← gridCellRemove g (pyround o.y) (pyround o.x) bid
      let a' := refreshAgent perceive a (some o)
      let o' := applyActs (think a' δ) o
      let g2 ← gridCellAppend g1 (pyround o'.y) (pyround o'.x) o'.oid
      let r ← gridProcessAgentsGo δ rest (replaceObj objs bid o') g2
      if a'.dead then some (a' :: r.1, r.2.1, r.2.2.1, a' :: r.2.2.2)
      else some (a' :: r.1, r.2.1, r.2.2.1, r.2.2.2)

def gridProcessAgents (δ : ℚ) (st : GridSt) : Option GridSt :=
  (gridProcessAgentsGo perceive think δ st.agents st.objects st.grid).map
    (fun r => { st with agents := r.1, objects := r.2.1, grid := r.2.2.1,
                        deadAgents := st.deadAgents ++ r.2.2.2 })

/-- The object loop of `World2DGrid.update`: remove the object from the
grid, update it, bounds-fix it, re-add it. -/
def gridObjLoop (δ : ℚ) (tor : Bool) (w h : ℤ) :
    List Obj → Grid → Option (List Obj × Grid)
  | [], g => some ([], g)
  | o :: rest, g => do
    let g1 ← gridCellRemove g (pyround o.y) (pyround o.x) o.oid
    let o1 := Obj.update cosDeg sinDeg δ o
    let o2 := gridBoundsFix tor w h o1
    let g2 ← gridCellAppend g1 (pyround o2.y) (pyround o2.x) o2.oid
    let r ← gridObjLoop δ tor w h rest g2
    some (o2 :: r.1, r.2)

/-- One iteration of `_remove_dead_agents` on the grid world: the inherited
code, with `remove_object` dispatching to `World2DGrid.remove_object`.  When
the body is not in the world, the grid-cell removal raises (the grid holds
no id that is not an object of the world). -/
def gridRemoveDeadOne (st : GridSt) (a : AgentM) : Option GridSt :=
  match a.bodyId with
  | none => none
  | some bid =>
    if a.keepBody then
      some { st with
        agents := if a.aid ∈ st.agents.map AgentM.aid
          then st.agents.eraseP (fun p => p.aid == a.aid) else st.agents,
        objects := clearedBody st.objects bid }
    else
      match findObj (clearedBody st.objects bid) bid with
      | some o => gridRemoveObject { st with
          agents := if a.aid ∈ st.agents.map AgentM.aid
            then st.agents.eraseP (fun p => p.aid == a.aid) else st.agents,
          objects := clearedBody st.objects bid } o
      | none => none

def gridRemoveDeadAgents (st : GridSt) : Option GridSt := do
  let st' ← List.foldlM gridRemoveDeadOne st st.deadAgents
  some { st' with deadAgents := [] }

/-- `World2DGrid.update(delta)`: when not paused, process the agents, run
the object loop, and remove the dead agents. -/
def gridUpdate (δ : ℚ) (st : GridSt) : Option GridSt :=
  if st.paused then some st
  else do
    let st1 ← gridProcessAgents perceive think δ st
    let r ← gridObjLoop cosDeg sinDeg δ st1.tor st1.gwidth st1.gheight
      st1.objects st1.grid
    gridRemoveDeadAgents { st1 with objects := r.1, grid := r.2 }

end GridModel

/-- The object↔grid correspondence: object ids are pairwise distinct, every
object of the world occurs exactly once in the whole grid, namely in the
cell indexed (with Python list-index resolution) by its rounded
coordinates, and the grid holds no id that is not an object of the
world. -/
def objGridInv (objs : List Obj) (g : Grid) : Prop :=
  (objs.map Obj.oid).Nodup ∧
  (∀ o ∈ objs, gridCount g o.oid = 1 ∧ objInCell g o) ∧
  (∀ row ∈ g, ∀ cell ∈ row, ∀ j ∈ cell, j ∈ objs.map Obj.oid)

instance (objs : List Obj) (g : Grid) : Decidable (objGridInv objs g) := by
  unfold objGridInv objInCell
  infer_instance

def gridInv (st : GridSt) : Prop := objGridInv st.objects st.grid

instance (st : GridSt) : Decidable (gridInv st) := by
  unfold gridInv
  infer_instance

theorem objGridInv_no_stray {objs : List Obj} {g : Grid}
    (h : ∀ row ∈ g, ∀ cell ∈ row, ∀ j ∈ cell, j ∈ objs.map Obj.oid)
    {i : ℕ} (hi : i ∉ objs.map Obj.oid) : gridCount g i = 0 := by
  unfold gridCount
  rw [List.sum_eq_zero]
  intro n hn
  rw [List.mem_map] at hn
  obtain ⟨row, hrow, rfl⟩ := hn
  rw [List.sum_eq_zero]
  intro m hm
  rw [List.mem_map] at hm
  obtain ⟨cell, hcell, rfl⟩ := hm
  rw [List.count_eq_zero]
  intro hmem
  exact hi (h row hrow cell hcell i hmem)


/-! ### Bookkeeping lemmas for grid modifications -/

theorem modifyAt_sum_add {f : α → Option α} {F : α → ℕ} {k : ℕ}
    (hf : ∀ a b, f a = some b → F b = F a + k) :
    ∀ {n : ℕ} {l l' : List α}, modifyAt f n l = some l' →
      (l'.map F).sum = (l.map F).sum + k := by
  intro n
  induction n with
  | zero =>
    intro l l' h
    cases l with
    | nil => cases h
    | cons a t =>
      simp only [modifyAt, Option.map_eq_some'] at h
      obtain ⟨b, hb, rfl⟩ := h
      simp only [List.map_cons, List.sum_cons, hf a b hb]
      omega
  | succ n ih =>
    intro l l' h
    cases l with
    | nil => cases h
    | cons a t =>
      simp only [modifyAt, Option.map_eq_some'] at h
      obtain ⟨t', ht, rfl⟩ := h
      simp only [List.map_cons, List.sum_cons, ih ht]
      omega

theorem modifyAt_sum_sub {f : α → Option α} {F : α → ℕ} {k : ℕ}
    (hf : ∀ a b, f a = some b → F b + k = F a) :
    ∀ {n : ℕ} {l l' : List α}, modifyAt f n l = some l' →
      (l'.map F).sum + k = (l.map F).sum := by
  intro n
  induction n with
  | zero =>
    intro l l' h
    cases l with
    | nil => cases h
    | cons a t =>
      simp only [modifyAt, Option.map_eq_some'] at h
      obtain ⟨b, hb, rfl⟩ := h
      simp only [List.map_cons, List.sum_cons, ← hf a b hb]
      omega
  | succ n ih =>
    intro l l' h
    cases l with
    | nil => cases h
    | cons a t =>
      simp only [modifyAt, Option.map_eq_some'] at h
      obtain ⟨t', ht, rfl⟩ := h
      simp only [List.map_cons, List.sum_cons, ← ih ht]
      omega

theorem modifyAt_mem {f : α → Option α} :
    ∀ {n : ℕ} {l l' : List α}, modifyAt f n l = some l' →
      ∀ x ∈ l', x ∈ l ∨ ∃ a b, a ∈ l ∧ f a = some b ∧ x = b := by
  intro n
  induction n with
  | zero =>
    intro l l' h x hx
    cases l with
    | nil => cases h
    | cons a t =>
      simp only [modifyAt, Option.map_eq_some'] at h
      obtain ⟨b, hb, rfl⟩ := h
      rcases List.mem_cons.mp hx with rfl | hx
      · exact Or.inr ⟨a, x, List.mem_cons_self _ _, hb, rfl⟩
      · exact Or.inl (List.mem_cons_of_mem _ hx)
  | succ n ih =>
    intro l l' h x hx
    cases l with
    | nil => cases h
    | cons a t =>
      simp only [modifyAt, Option.map_eq_some'] at h
      obtain ⟨t', ht, rfl⟩ := h
      rcases List.mem_cons.mp hx with rfl | hx
      · exact Or.inl (List.mem_cons_self _ _)
      · rcases ih ht x hx with h1 | ⟨a2, b2, ha2, hb2, heq⟩
        · exact Or.inl (List.mem_cons_of_mem _ h1)
        · exact Or.inr ⟨a2, b2, List.mem_cons_of_mem _ ha2, hb2, heq⟩

theorem gridModify_eq {f : List ℕ → Option (List ℕ)} {g : Grid} {r c : ℤ}
    {g' : Grid} (h : gridModify f g r c = some g') :
    ∃ ri, pyIdx g.length r = some ri ∧
      modifyAt (fun row => (pyIdx row.length c).bind
        (fun ci => modifyAt f ci row)) ri g = some g' := by
  unfold gridModify at h
  rcases Option.bind_eq_some.mp h with ⟨ri, hri, hmod⟩
  exact ⟨ri, hri, hmod⟩

theorem gridModify_count_add {f : List ℕ → Option (List ℕ)} {g : Grid}
    {r c : ℤ} {g' : Grid} (i k : ℕ) (h : gridModify f g r c = some g')
    (hf : ∀ cell cell', f cell = some cell' →
      cell'.count i = cell.count i + k) :
    gridCount g' i = gridCount g i + k := by
  obtain ⟨ri, _, hmod⟩ := gridModify_eq h
  unfold gridCount
  refine modifyAt_sum_add ?_ hmod
  intro row row' hrow
  rcases Option.bind_eq_some.mp hrow with ⟨ci, _, hmodr⟩
  exact modifyAt_sum_add hf hmodr

theorem gridModify_count_sub {f : List ℕ → Option (List ℕ)} {g : Grid}
    {r c : ℤ} {g' : Grid} (i k : ℕ) (h : gridModify f g r c = some g')
    (hf : ∀ cell cell', f cell = some cell' →
      cell'.count i + k = cell.count i) :
    gridCount g' i + k = gridCount g i := by
  obtain ⟨ri, _, hmod⟩ := gridModify_eq h
  unfold gridCount
  refine modifyAt_sum_sub ?_ hmod
  intro row row' hrow
  rcases Option.bind_eq_some.mp hrow with ⟨ci, _, hmodr⟩
  exact modifyAt_sum_sub hf hmodr

theorem gridModify_mem {f : List ℕ → Option (List ℕ)} {g : Grid} {r c : ℤ}
    {g' : Grid} (i0 : ℕ) (h : gridModify f g r c = some g')
    (hf : ∀ cell cell' j, f cell = some cell' → j ∈ cell' →
      j ∈ cell ∨ j = i0) :
    ∀ row' ∈ g', ∀ cell' ∈ row', ∀ j ∈ cell',
      (∃ row ∈ g, ∃ cell ∈ row, j ∈ cell) ∨ j = i0 := by
  obtain ⟨ri, _, hmod⟩ := gridModify_eq h
  intro row' hrow' cell' hcell' j hj
  rcases modifyAt_mem hmod row' hrow' with hmemr | ⟨row, row2, hrowg, hinner, rfl⟩
  · exact Or.inl ⟨row', hmemr, cell', hcell', hj⟩
  · rcases Option.bind_eq_some.mp hinner with ⟨ci, _, hmodr⟩
    rcases modifyAt_mem hmodr cell' hcell' with hmemc | ⟨cell, cell2, hcellr, hfc, rfl⟩
    · exact Or.inl ⟨row, hrowg, cell', hmemc, hj⟩
    · rcases hf cell cell' j hfc hj with h1 | h1
      · exact Or.inl ⟨row, hrowg, cell, hcellr, h1⟩
      · exact Or.inr h1

theorem pyCellGet_def (g : Grid) (r c : ℤ) :
    pyCellGet g r c = (pyIdx g.length r).bind (fun ri => (g.get? ri).bind
      (fun row => (pyIdx row.length c).bind (fun ci => row.get? ci))) := rfl

theorem pyCellGet_modify_target {f : List ℕ → Option (List ℕ)} {g : Grid}
    {r c : ℤ} {g' : Grid} (h : gridModify f g r c = some g') :
    ∃ cell cell', pyCellGet g r c = some cell ∧ f cell = some cell' ∧
      pyCellGet g' r c = some cell' := by
  obtain ⟨ri, hri, hmod⟩ := gridModify_eq h
  obtain ⟨row, row', hrowg, hinner, hrow'⟩ := modifyAt_get_eq hmod
  rcases Option.bind_eq_some.mp hinner with ⟨ci, hci, hmodr⟩
  obtain ⟨cell, cell', hcellr, hfc, hcell'⟩ := modifyAt_get_eq hmodr
  refine ⟨cell, cell', ?_, hfc, ?_⟩
  · rw [pyCellGet_def]
    simp only [hri, Option.some_bind, hrowg, hci]
    exact hcellr
  · rw [pyCellGet_def]
    simp only [modifyAt_length hmod, hri, Option.some_bind, hrow',
      modifyAt_length hmodr, hci]
    exact hcell'

theorem pyCellGet_modify_other {f : List ℕ → Option (List ℕ)} {g : Grid}
    {r c : ℤ} {g' : Grid} (h : gridModify f g r c = some g') (r' c' : ℤ) :
    pyCellGet g' r' c' = pyCellGet g r' c' ∨
    ∃ cell cell', pyCellGet g r' c' = some cell ∧ f cell = some cell' ∧
      pyCellGet g' r' c' = some cell' := by
  obtain ⟨ri, hri, hmod⟩ := gridModify_eq h
  have hlen : g'.length = g.length := modifyAt_length hmod
  obtain ⟨row, row', hrowg, hinner, hrow'⟩ := modifyAt_get_eq hmod
  rcases Option.bind_eq_some.mp hinner with ⟨ci, hci, hmodr⟩
  cases hri' : pyIdx g.length r' with
  | none =>
    left
    rw [pyCellGet_def, pyCellGet_def, hlen, hri']
    simp only [Option.none_bind]
  | some ri' =>
    by_cases hrieq : ri' = ri
    · subst hrieq
      have hrlen : row'.length = row.length := modifyAt_length hmodr
      cases hci' : pyIdx row.length c' with
      | none =>
        left
        rw [pyCellGet_def, pyCellGet_def, hlen, hri']
        simp only [Option.some_bind, hrow', hrowg, hrlen, hci',
          Option.none_bind]
      | some ci' =>
        by_cases hcieq : ci' = ci
        · subst hcieq
          right
          obtain ⟨cell, cell', hcellr, hfc, hcell'⟩ := modifyAt_get_eq hmodr
          refine ⟨cell, cell', ?_, hfc, ?_⟩
          · rw [pyCellGet_def]
            simp only [hri', Option.some_bind, hrowg, hci']
            exact hcellr
          · rw [pyCellGet_def]
            simp only [hlen, hri', Option.some_bind, hrow', hrlen, hci']
            exact hcell'
        · left
          rw [pyCellGet_def, pyCellGet_def, hlen, hri']
          simp only [Option.some_bind, hrow', hrowg, hrlen, hci']
          exact modifyAt_get_ne hmodr ci' hcieq
    · left
      rw [pyCellGet_def, pyCellGet_def, hlen, hri']
      simp only [Option.some_bind, modifyAt_get_ne hmod ri' hrieq]

theorem gridCellAppend_count_self {g g' : Grid} {r c : ℤ} {i : ℕ}
    (h : gridCellAppend g r c i = some g') :
    gridCount g' i = gridCount g i + 1 := by
  refine gridModify_count_add i 1 h ?_
  intro cell cell' hc
  cases hc
  simp [List.count_append]

theorem gridCellAppend_count_ne {g g' : Grid} {r c : ℤ} {i j : ℕ}
    (h : gridCellAppend g r c i = some g') (hne : j ≠ i) :
    gridCount g' j = gridCount g j := by
  have h0 := gridModify_count_add j 0 h ?_
  · omega
  · intro cell cell' hc
    cases hc
    simp [List.count_append, List.count_singleton', hne]

theorem gridCellRemove_count_self {g g' : Grid} {r c : ℤ} {i : ℕ}
    (h : gridCellRemove g r c i = some g') :
    gridCount g' i + 1 = gridCount g i := by
  refine gridModify_count_sub i 1 h ?_
  intro cell cell' hc
  by_cases hi : i ∈ cell
  · rw [if_pos hi] at hc
    cases hc
    have h1 : cell.count i ≠ 0 := fun hc0 => (List.count_eq_zero.mp hc0) hi
    rw [List.count_erase_self]
    omega
  · rw [if_neg hi] at hc
    cases hc

theorem gridCellRemove_count_ne {g g' : Grid} {r c : ℤ} {i j : ℕ}
    (h : gridCellRemove g r c i = some g') (hne : j ≠ i) :
    gridCount g' j = gridCount g j := by
  have h0 := gridModify_count_add j 0 h ?_
  · omega
  · intro cell cell' hc
    by_cases hi : i ∈ cell
    · rw [if_pos hi] at hc
      cases hc
      rw [List.count_erase_of_ne hne]
      omega
    · rw [if_neg hi] at hc
      cases hc

theorem gridCellAppend_mem {g g' : Grid} {r c : ℤ} {i : ℕ}
    (h : gridCellAppend g r c i = some g') {j : ℕ} (hm : gridMem g' j) :
    gridMem g j ∨ j = i := by
  obtain ⟨row', hrow', cell', hcell', hj⟩ := hm
  have := gridModify_mem i h ?_ row' hrow' cell' hcell' j hj
  · rcases this with ⟨row, h1, cell, h2, h3⟩ | h1
    · exact Or.inl ⟨row, h1, cell, h2, h3⟩
    · exact Or.inr h1
  · intro cell cell' j' hc hj'
    cases hc
    rcases List.mem_append.mp hj' with h1 | h1
    · exact Or.inl h1
    · exact Or.inr (List.mem_singleton.mp h1)

theorem gridCellRemove_mem {g g' : Grid} {r c : ℤ} {i : ℕ}
    (h : gridCellRemove g r c i = some g') {j : ℕ} (hm : gridMem g' j) :
    gridMem g j := by
  obtain ⟨row', hrow', cell', hcell', hj⟩ := hm
  have := gridModify_mem (j + 1) h ?_ row' hrow' cell' hcell' j hj
  · rcases this with ⟨row, h1, cell, h2, h3⟩ | h1
    · exact ⟨row, h1, cell, h2, h3⟩
    · omega
  · intro cell cell' j' hc hj'
    by_cases hi : i ∈ cell
    · rw [if_pos hi] at hc
      cases hc
      exact Or.inl (List.mem_of_mem_erase hj')
    · rw [if_neg hi] at hc
      cases hc

theorem objInCell_after_modify {f : List ℕ → Option (List ℕ)} {g g' : Grid}
    {r c : ℤ} (h : gridModify f g r c = some g') {p : Obj}
    (hf : ∀ cell cell', f cell = some cell' → p.oid ∈ cell → p.oid ∈ cell')
    (hp : objInCell g p) : objInCell g' p := by
  unfold objInCell at *
  rcases pyCellGet_modify_other h (pyround p.y) (pyround p.x) with
    heq | ⟨cell, cell', h1, h2, h3⟩
  · rw [heq]
    exact hp
  · rw [h3]
    rw [h1] at hp
    exact hf cell cell' h2 hp

theorem objInCell_after_append {g g' : Grid} {r c : ℤ} {i : ℕ}
    (h : gridCellAppend g r c i = some g') {p : Obj}
    (hp : objInCell g p) : objInCell g' p := by
  refine objInCell_after_modify h ?_ hp
  intro cell cell' hc hmem
  cases hc
  exact List.mem_append_left _ hmem

theorem objInCell_after_remove_ne {g g' : Grid} {r c : ℤ} {i : ℕ}
    (h : gridCellRemove g r c i = some g') {p : Obj} (hne : p.oid ≠ i)
    (hp : objInCell g p) : objInCell g' p := by
  refine objInCell_after_modify h ?_ hp
  intro cell cell' hc hmem
  by_cases hi : i ∈ cell
  · rw [if_pos hi] at hc
    cases hc
    exact (List.mem_erase_of_ne hne).mpr hmem
  · rw [if_neg hi] at hc
    cases hc

theorem objInCell_append_self {g g' : Grid} {o : Obj}
    (h : gridCellAppend g (pyround o.y) (pyround o.x) o.oid = some g') :
    objInCell g' o := by
  obtain ⟨cell, cell', h1, h2, h3⟩ := pyCellGet_modify_target h
  cases h2
  unfold objInCell
  rw [h3]
  simp

/-! ### Helpers about object lists -/

theorem applyActs_oid (fs : List (Obj → Obj)) (o : Obj) :
    (applyActs fs o).oid = o.oid := by
  induction fs generalizing o with
  | nil => rfl
  | cons f fs ih =>
    unfold applyActs at ih ⊢
    rw [List.foldl_cons, ih]

theorem replaceObj_map_oid {objs : List Obj} {bid : ℕ} {o' : Obj}
    (h : o'.oid = bid) :
    (replaceObj objs bid o').map Obj.oid = objs.map Obj.oid := by
  unfold replaceObj
  induction objs with
  | nil => rfl
  | cons p rest ih =>
    by_cases hp : p.oid = bid
    · simp [ih, hp, h]
    · simp [ih, hp]

theorem mem_replaceObj {objs : List Obj} {bid : ℕ} {o' : Obj} {p : Obj}
    (hp : p ∈ replaceObj objs bid o') :
    (p = o' ∧ ∃ q ∈ objs, q.oid = bid) ∨ (p ∈ objs ∧ p.oid ≠ bid) := by
  unfold replaceObj at hp
  rcases List.mem_map.mp hp with ⟨q, hq, heq⟩
  by_cases hqb : q.oid = bid
  · rw [if_pos hqb] at heq
    exact Or.inl ⟨heq.symm, q, hq, hqb⟩
  · rw [if_neg hqb] at heq
    exact Or.inr ⟨heq ▸ hq, heq ▸ hqb⟩

theorem findObj_some {objs : List Obj} {bid : ℕ} {o : Obj}
    (h : findObj objs bid = some o) : o ∈ objs ∧ o.oid = bid := by
  unfold findObj at h
  refine ⟨List.mem_of_find?_eq_some h, ?_⟩
  have h2 := List.find?_some h
  simpa using h2

theorem oid_injOn {objs : List Obj} (hnd : (objs.map Obj.oid).Nodup)
    {p q : Obj} (hp : p ∈ objs) (hq : q ∈ objs) (he : p.oid = q.oid) :
    p = q :=
  List.inj_on_of_nodup_map hnd hp hq he

theorem mem_eraseP_oid {objs : List Obj}
    (hnd : (objs.map Obj.oid).Nodup) {i : ℕ} {p : Obj}
    (hp : p ∈ objs.eraseP (fun q => q.oid == i)) : p ∈ objs ∧ p.oid ≠ i := by
  induction objs with
  | nil => cases hp
  | cons q rest ih =>
    rw [List.map_cons, List.nodup_cons] at hnd
    by_cases hq : q.oid = i
    · rw [List.eraseP_cons_of_pos (by simpa using hq)] at hp
      refine ⟨List.mem_cons_of_mem _ hp, ?_⟩
      intro hpi
      exact hnd.1 (by
        rw [List.mem_map]
        exact ⟨p, hp, by rw [hpi, hq]⟩)
    · rw [List.eraseP_cons_of_neg (by simpa using hq)] at hp
      rcases List.mem_cons.mp hp with rfl | hp
      · exact ⟨List.mem_cons_self _ _, hq⟩
      · obtain ⟨h1, h2⟩ := ih hnd.2 hp
        exact ⟨List.mem_cons_of_mem _ h1, h2⟩

theorem mem_eraseP_of_ne {objs : List Obj} {i : ℕ} {p : Obj} (hp : p ∈ objs)
    (hne : p.oid ≠ i) : p ∈ objs.eraseP (fun q => q.oid == i) := by
  induction objs with
  | nil => cases hp
  | cons q rest ih =>
    by_cases hq : q.oid = i
    · rw [List.eraseP_cons_of_pos (by simpa using hq)]
      rcases List.mem_cons.mp hp with rfl | hp
      · exact absurd hq hne
      · exact hp
    · rw [List.eraseP_cons_of_neg (by simpa using hq)]
      rcases List.mem_cons.mp hp with rfl | hp
      · exact List.mem_cons_self _ _
      · exact List.mem_cons_of_mem _ (ih hp)

theorem pyCellGet_mem {g : Grid} {r c : ℤ} {cell : List ℕ}
    (h : pyCellGet g r c = some cell) : ∃ row ∈ g, cell ∈ row := by
  rw [pyCellGet_def] at h
  rcases Option.bind_eq_some.mp h with ⟨ri, _, h⟩
  rcases Option.bind_eq_some.mp h with ⟨row, hrow, h⟩
  rcases Option.bind_eq_some.mp h with ⟨ci, _, h⟩
  exact ⟨row, List.get?_mem hrow, List.get?_mem h⟩

theorem gridMem_count_pos {g : Grid} {i : ℕ} (h : gridMem g i) :
    0 < gridCount g i := by
  obtain ⟨row, hrow, cell, hcell, hi⟩ := h
  unfold gridCount
  calc 0 < cell.count i := List.count_pos_iff_mem.mpr hi
    _ ≤ (row.map (fun cell => cell.count i)).sum :=
      List.single_le_sum (fun x _ => Nat.zero_le x) _ (List.mem_map_of_mem _ hcell)
    _ ≤ (g.map (fun row => (row.map (fun cell => cell.count i)).sum)).sum :=
      List.single_le_sum (fun x _ => Nat.zero_le x) _ (List.mem_map_of_mem _ hrow)

theorem objInCell_gridMem {g : Grid} {o : Obj} (h : objInCell g o) :
    gridMem g o.oid := by
  unfold objInCell at h
  cases hc : pyCellGet g (pyround o.y) (pyround o.x) with
  | none => rw [hc] at h; cases h
  | some cell =>
    rw [hc] at h
    obtain ⟨row, h1, h2⟩ := pyCellGet_mem hc
    exact ⟨row, h1, cell, h2, h⟩

theorem gridBoundsFix_oid (tor : Bool) (w h : ℤ) (o : Obj) :
    (gridBoundsFix tor w h o).oid = o.oid := by
  unfold gridBoundsFix
  split <;> rfl

theorem objUpdate_oid (cosDeg sinDeg : ℚ → ℚ) (δ : ℚ) (o : Obj) :
    (Obj.update cosDeg sinDeg δ o).oid = o.oid := by
  by_cases hp : o.phys = true
  · by_cases ha : o.angVel = 0
    · simp [Obj.update, hp, ha]
    · simp [Obj.update, hp, ha, Obj.setAngle, Obj.setVelocity]
  · have hp' : o.phys = false := by simpa using hp
    simp [Obj.update, hp']

theorem objInCell_congr {g : Grid} {p q : Obj} (h1 : p.oid = q.oid)
    (h2 : p.x = q.x) (h3 : p.y = q.y) (h : objInCell g q) : objInCell g p := by
  unfold objInCell at *
  rw [h1, h2, h3]
  exact h

theorem nodup_concat_ne {d r : List Obj} {a : Obj}
    (hnd : ((d ++ a :: r).map Obj.oid).Nodup) {p : Obj} (hp : p ∈ d ++ r) :
    p.oid ≠ a.oid := by
  rw [List.map_append, List.map_cons] at hnd
  rw [List.nodup_middle] at hnd
  intro he
  apply (List.nodup_cons.mp hnd).1
  rcases List.mem_append.mp hp with h1 | h1
  · exact List.mem_append_left _ (he ▸ List.mem_map_of_mem _ h1)
  · exact List.mem_append_right _ (he ▸ List.mem_map_of_mem _ h1)

/-! ### Preservation of the grid invariant by the four operations -/

theorem gridAdd_preserves {st : GridSt} {o : Obj} {st' : GridSt}
    (hinv : gridInv st) (hfresh : o.oid ∉ st.objects.map Obj.oid)
    (h : gridAddObject st o = some st') : gridInv st' := by
  obtain ⟨hnd, hobj, hstray⟩ := hinv
  unfold gridAddObject at h
  rcases Option.map_eq_some'.mp h with ⟨g', happ, rfl⟩
  set o2 := gridBoundsFix st.tor st.gwidth st.gheight o with ho2
  have hoid : o2.oid = o.oid := gridBoundsFix_oid _ _ _ _
  refine ⟨?_, ?_, ?_⟩
  · rw [List.map_append, List.map_singleton, hoid]
    rw [List.nodup_append]
    exact ⟨hnd, List.nodup_singleton _,
      fun a ha hb => hfresh ((List.mem_singleton.mp hb) ▸ ha)⟩
  · intro p hp
    rcases List.mem_append.mp hp with hp1 | hp1
    · have hne : p.oid ≠ o2.oid := by
        rw [hoid]
        intro he
        exact hfresh (he ▸ List.mem_map_of_mem _ hp1)
      obtain ⟨hc, hcell⟩ := hobj p hp1
      exact ⟨(gridCellAppend_count_ne happ hne).trans hc,
        objInCell_after_append happ hcell⟩
    · rw [List.mem_singleton.mp hp1]
      constructor
      · rw [gridCellAppend_count_self happ, hoid,
          objGridInv_no_stray hstray hfresh]
      · exact objInCell_append_self happ
  · intro row hrow cell hcell j hj
    show j ∈ (st.objects ++ [o2]).map Obj.oid
    rw [List.map_append, List.map_singleton, hoid]
    rcases gridCellAppend_mem happ ⟨row, hrow, cell, hcell, hj⟩ with h1 | h1
    · obtain ⟨row2, h2, cell2, h3, h4⟩ := h1
      exact List.mem_append_left _ (hstray row2 h2 cell2 h3 j h4)
    · exact List.mem_append_right _
        (by rw [h1, hoid]; exact List.mem_singleton_self _)

theorem gridRemove_preserves {st : GridSt} {o : Obj} {st' : GridSt}
    (hinv : gridInv st) (hco : ∀ p ∈ st.objects, p.oid = o.oid → p = o)
    (h : gridRemoveObject st o = some st') : gridInv st' := by
  obtain ⟨hnd, hobj, hstray⟩ := hinv
  unfold gridRemoveObject at h
  by_cases hb : o.isBody = false
  · rw [if_pos hb] at h
    rcases Option.map_eq_some'.mp h with ⟨g', hrem, rfl⟩
    obtain ⟨cell, cell', h1, h2, h3⟩ := pyCellGet_modify_target hrem
    have hmemcell : o.oid ∈ cell := by
      by_cases hm : o.oid ∈ cell
      · exact hm
      · rw [if_neg hm] at h2; cases h2
    have hmemg : gridMem st.grid o.oid := by
      obtain ⟨row, hr1, hr2⟩ := pyCellGet_mem h1
      exact ⟨row, hr1, cell, hr2, hmemcell⟩
    have hoin : o.oid ∈ st.objects.map Obj.oid := by
      obtain ⟨row, hr1, c2, hr2, hr3⟩ := hmemg
      exact hstray row hr1 c2 hr2 o.oid hr3
    have hoobj : o ∈ st.objects := by
      rcases List.mem_map.mp hoin with ⟨q, hq1, hq2⟩
      exact (hco q hq1 hq2) ▸ hq1
    rw [if_pos ⟨hb, hoin⟩]
    refine ⟨?_, ?_, ?_⟩
    · exact List.Nodup.sublist (List.Sublist.map _ (List.eraseP_sublist _)) hnd
    · intro p hp
      obtain ⟨hp1, hp2⟩ := mem_eraseP_oid hnd hp
      obtain ⟨hc, hcell⟩ := hobj p hp1
      exact ⟨(gridCellRemove_count_ne hrem hp2).trans hc,
        objInCell_after_remove_ne hrem hp2 hcell⟩
    · intro row hrow cell2 hcell2 j hj
      have hmem' : gridMem st.grid j :=
        gridCellRemove_mem hrem ⟨row, hrow, cell2, hcell2, hj⟩
      have hjin : j ∈ st.objects.map Obj.oid := by
        obtain ⟨r2, a1, c3, a2, a3⟩ := hmem'
        exact hstray r2 a1 c3 a2 j a3
      have hjne : j ≠ o.oid := by
        intro he
        have hcnt : gridCount st.grid o.oid = 1 := (hobj o hoobj).1
        have hcnt' := gridCellRemove_count_self hrem
        have hpos : 0 < gridCount g' j :=
          gridMem_count_pos ⟨row, hrow, cell2, hcell2, hj⟩
        rw [he] at hpos
        omega
      rcases List.mem_map.mp hjin with ⟨q, hq1, hq2⟩
      have hq3 : q ∈ st.objects.eraseP (fun p => p.oid == o.oid) :=
        mem_eraseP_of_ne hq1 (by rw [hq2]; exact hjne)
      rw [← hq2]
      exact List.mem_map_of_mem _ hq3
  · have hb' : o.isBody = true := by simpa using hb
    rw [if_neg hb] at h
    have hcond : ¬(o.isBody = false ∧ o.oid ∈ st.objects.map Obj.oid) := by
      intro hc
      exact hb hc.1
    rw [if_neg hcond] at h
    cases h
    exact ⟨hnd, hobj, hstray⟩

/-- Moving one object of the world to a new cell (remove from its current
cell, mutate it without touching its identity, append at the new rounded
coordinates) preserves the correspondence. -/
theorem objGridInv_replace_step {objs : List Obj} {g g1 g2 : Grid}
    {o o' : Obj} (hinv : objGridInv objs g) (ho : o ∈ objs)
    (hoid : o'.oid = o.oid)
    (hrem : gridCellRemove g (pyround o.y) (pyround o.x) o.oid = some g1)
    (happ : gridCellAppend g1 (pyround o'.y) (pyround o'.x) o'.oid = some g2) :
    objGridInv (replaceObj objs o.oid o') g2 := by
  obtain ⟨hnd, hobj, hstray⟩ := hinv
  refine ⟨?_, ?_, ?_⟩
  · rw [replaceObj_map_oid hoid]
    exact hnd
  · intro p hp
    rcases mem_replaceObj hp with ⟨rfl, -⟩ | ⟨hp1, hp2⟩
    · constructor
      · rw [gridCellAppend_count_self happ, hoid]
        have hc1 := gridCellRemove_count_self hrem
        have hc2 := (hobj o ho).1
        omega
      · exact objInCell_append_self happ
    · have hne' : p.oid ≠ o'.oid := by rw [hoid]; exact hp2
      obtain ⟨hc, hcell⟩ := hobj p hp1
      refine ⟨?_, ?_⟩
      · rw [gridCellAppend_count_ne happ hne',
          gridCellRemove_count_ne hrem hp2]
        exact hc
      · exact objInCell_after_append happ
          (objInCell_after_remove_ne hrem hp2 hcell)
  · intro row hrow cell hcell j hj
    rw [replaceObj_map_oid hoid]
    rcases gridCellAppend_mem happ ⟨row, hrow, cell, hcell, hj⟩ with h1 | h1
    · have h2 := gridCellRemove_mem hrem h1
      obtain ⟨r2, a1, c2, a2, a3⟩ := h2
      exact hstray r2 a1 c2 a2 j a3
    · rw [h1, hoid]
      exact List.mem_map_of_mem _ ho

theorem replaceObj_not_mem {l : List Obj} {i : ℕ}
    (h : ∀ p ∈ l, p.oid ≠ i) (o2 : Obj) : replaceObj l i o2 = l := by
  unfold replaceObj
  induction l with
  | nil => rfl
  | cons p rest ih =>
    rw [List.map_cons, if_neg (h p (List.mem_cons_self _ _)),
      ih (fun q hq => h q (List.mem_cons_of_mem _ hq))]

theorem replaceObj_middle {d r : List Obj} {o o2 : Obj}
    (hnd : ((d ++ o :: r).map Obj.oid).Nodup) :
    replaceObj (d ++ o :: r) o.oid o2 = d ++ o2 :: r := by
  have h1 : ∀ p ∈ d ++ r, p.oid ≠ o.oid := fun p hp => nodup_concat_ne hnd hp
  show ((d ++ o :: r).map (fun p => if p.oid = o.oid then o2 else p)) =
    d ++ o2 :: r
  rw [List.map_append, List.map_cons, if_pos rfl]
  have hd : replaceObj d o.oid o2 = d :=
    replaceObj_not_mem (fun p hp => h1 p (List.mem_append_left _ hp)) o2
  have hr : replaceObj r o.oid o2 = r :=
    replaceObj_not_mem (fun p hp => h1 p (List.mem_append_right _ hp)) o2
  unfold replaceObj at hd hr
  rw [hd, hr]

theorem gridProcessGo_preserves (perceive : AgentM → Option Obj → List ℚ)
    (think : AgentM → ℚ → List (Obj → Obj)) (δ : ℚ) :
    ∀ (ags : List AgentM) (objs : List Obj) (g : Grid)
      (r : List AgentM × List Obj × Grid × List AgentM),
      objGridInv objs g →
      gridProcessAgentsGo perceive think δ ags objs g = some r →
      objGridInv r.2.1 r.2.2.1 := by
  intro ags
  induction ags with
  | nil =>
    intro objs g r hinv h
    simp only [gridProcessAgentsGo] at h
    cases h
    exact hinv
  | cons a rest ih =>
    intro objs g r hinv h
    simp only [gridProcessAgentsGo] at h
    split at h
    · rcases Option.bind_eq_some.mp h with ⟨r0, h0, h1⟩
      cases h1
      exact ih objs g r0 hinv h0
    · rcases Option.bind_eq_some.mp h with ⟨bid, hbid, h⟩
      rcases Option.bind_eq_some.mp h with ⟨o, ho, h⟩
      rcases Option.bind_eq_some.mp h with ⟨g1, hg1, h⟩
      rcases Option.bind_eq_some.mp h with ⟨g2, hg2, h⟩
      rcases Option.bind_eq_some.mp h with ⟨r0, h0, h1⟩
      obtain ⟨homem, hooid⟩ := findObj_some ho
      subst hooid
      have hstep := objGridInv_replace_step hinv homem
        (applyActs_oid _ _) hg1 hg2
      have hres := ih _ _ r0 hstep h0
      split at h1 <;> cases h1 <;> exact hres

theorem gridProcess_preserves {perceive : AgentM → Option Obj → List ℚ}
    {think : AgentM → ℚ → List (Obj → Obj)} {δ : ℚ} {st st' : GridSt}
    (hinv : gridInv st)
    (h : gridProcessAgents perceive think δ st = some st') : gridInv st' := by
  unfold gridProcessAgents at h
  rcases Option.map_eq_some'.mp h with ⟨r, hr, rfl⟩
  exact gridProcessGo_preserves perceive think δ st.agents st.objects st.grid
    r hinv hr

theorem gridObjLoop_preserves (cosDeg sinDeg : ℚ → ℚ) (δ : ℚ) (tor : Bool)
    (w h : ℤ) :
    ∀ (objs : List Obj) (g : Grid) (r : List Obj × Grid) (done : List Obj),
      objGridInv (done ++ objs) g →
      gridObjLoop cosDeg sinDeg δ tor w h objs g = some r →
      objGridInv (done ++ r.1) r.2 := by
  intro objs
  induction objs with
  | nil =>
    intro g r done hinv hl
    simp only [gridObjLoop] at hl
    cases hl
    simpa using hinv
  | cons o rest ih =>
    intro g r done hinv hl
    simp only [gridObjLoop] at hl
    rcases Option.bind_eq_some.mp hl with ⟨g1, hg1, hl⟩
    rcases Option.bind_eq_some.mp hl with ⟨g2, hg2, hl⟩
    rcases Option.bind_eq_some.mp hl with ⟨r0, h0, h1⟩
    cases h1
    set o2 := gridBoundsFix tor w h (Obj.update cosDeg sinDeg δ o) with ho2
    have hoid : o2.oid = o.oid := by
      rw [ho2, gridBoundsFix_oid, objUpdate_oid]
    have homem : o ∈ done ++ o :: rest :=
      List.mem_append_right _ (List.mem_cons_self _ _)
    have hstep := objGridInv_replace_step hinv homem hoid hg1 hg2
    rw [replaceObj_middle hinv.1] at hstep
    have hstep' : objGridInv ((done ++ [o2]) ++ rest) g2 := by
      simpa using hstep
    have hres := ih g2 r0 (done ++ [o2]) hstep' h0
    simpa using hres

theorem gridRemoveDeadOne_preserves {st : GridSt} {a : AgentM} {st' : GridSt}
    (hinv : gridInv st) (h : gridRemoveDeadOne st a = some st') :
    gridInv st' := by
  obtain ⟨hnd, hobj, hstray⟩ := hinv
  unfold gridRemoveDeadOne at h
  cases hbid : a.bodyId with
  | none => rw [hbid] at h; cases h
  | some bid =>
    simp only [hbid] at h
    have hinv1 : objGridInv (clearedBody st.objects bid) st.grid := by
      unfold clearedBody
      refine ⟨?_, ?_, ?_⟩
      · have hmo : (st.objects.map (fun o =>
            if o.oid = bid then { o with agent := none, isBody := false }
            else o)).map Obj.oid = st.objects.map Obj.oid := by
          rw [List.map_map]
          refine List.map_congr_left ?_
          intro p _
          by_cases hp : p.oid = bid <;> simp [hp]
        rw [hmo]
        exact hnd
      · intro p hp
        rcases List.mem_map.mp hp with ⟨q, hq, heq⟩
        obtain ⟨hc, hcell⟩ := hobj q hq
        by_cases hqb : q.oid = bid
        · rw [if_pos hqb] at heq
          subst heq
          exact ⟨hc, objInCell_congr rfl rfl rfl hcell⟩
        · rw [if_neg hqb] at heq
          subst heq
          exact ⟨hc, hcell⟩
      · intro row hrow cell hcell j hj
        have := hstray row hrow cell hcell j hj
        rcases List.mem_map.mp this with ⟨q, hq, heq⟩
        by_cases hqb : q.oid = bid
        · refine List.mem_map.mpr ⟨{ q with agent := none, isBody := false },
            List.mem_map.mpr ⟨q, hq, by rw [if_pos hqb]⟩, heq⟩
        · exact List.mem_map.mpr ⟨q,
            List.mem_map.mpr ⟨q, hq, by rw [if_neg hqb]⟩, heq⟩
    by_cases hk : a.keepBody = true
    · rw [if_pos hk] at h
      cases h
      exact hinv1
    · rw [if_neg hk] at h
      cases hfind : findObj (clearedBody st.objects bid) bid with
      | none => rw [hfind] at h; cases h
      | some o =>
        rw [hfind] at h
        obtain ⟨hom, hoo⟩ := findObj_some hfind
        refine gridRemove_preserves ?_ ?_ h
        · exact hinv1
        · intro p hp hpo
          exact oid_injOn hinv1.1 hp hom hpo

theorem gridRemoveDead_preserves :
    ∀ (ds : List AgentM) (st st' : GridSt), gridInv st →
      List.foldlM gridRemoveDeadOne st ds = some st' → gridInv st' := by
  intro ds
  induction ds with
  | nil =>
    intro st st' hinv h
    cases h
    exact hinv
  | cons a rest ih =>
    intro st st' hinv h
    rw [List.foldlM_cons] at h
    rcases Option.bind_eq_some.mp h with ⟨st1, h1, h2⟩
    exact ih st1 st' (gridRemoveDeadOne_preserves hinv h1) h2

theorem gridRemoveDeadAgents_preserves {st st' : GridSt} (hinv : gridInv st)
    (h : gridRemoveDeadAgents st = some st') : gridInv st' := by
  unfold gridRemoveDeadAgents at h
  rcases Option.bind_eq_some.mp h with ⟨st1, h1, h2⟩
  cases h2
  exact gridRemoveDead_preserves st.deadAgents st st1 hinv h1

theorem gridUpdate_preserves {cosDeg sinDeg : ℚ → ℚ}
    {perceive : AgentM → Option Obj → List ℚ}
    {think : AgentM → ℚ → List (Obj → Obj)} {δ : ℚ} {st st' : GridSt}
    (hinv : gridInv st)
    (h : gridUpdate cosDeg sinDeg perceive think δ st = some st') :
    gridInv st' := by
  unfold gridUpdate at h
  split at h
  · cases h
    exact hinv
  · rcases Option.bind_eq_some.mp h with ⟨st1, h1, h⟩
    rcases Option.bind_eq_some.mp h with ⟨r, hr, h⟩
    have hinv1 : gridInv st1 := gridProcess_preserves hinv h1
    have hinv2 : objGridInv r.1 r.2 := by
      have := gridObjLoop_preserves cosDeg sinDeg δ st1.tor st1.gwidth
        st1.gheight st1.objects st1.grid r [] hinv1 hr
      simpa using this
    exact @gridRemoveDeadAgents_preserves { st1 with
      objects := r.1, grid := r.2 } st' hinv2 h

/-- C1: in a `World2DGrid`, every object held in the world's object list
occurs in exactly one grid cell list, namely the cell indexed (with Python
list-index semantics) by the rounded coordinates
`[round(obj.y)][round(obj.x)]`; this correspondence (`gridInv`) is preserved
by `add_object` (for an object not already in the world), by
`remove_object` (object identity being modelled by `oid`), by
`process_agents`, and by `update` when not paused, whenever the operation
completes without raising. -/
theorem C1_grid_correspondence (cosDeg sinDeg : ℚ → ℚ)
    (perceive : AgentM → Option Obj → List ℚ)
    (think : AgentM → ℚ → List (Obj → Obj)) (δ : ℚ) :
    (∀ (st : GridSt) (o : Obj) (st' : GridSt), gridInv st →
      o.oid ∉ st.objects.map Obj.oid →
      gridAddObject st o = some st' → gridInv st') ∧
    (∀ (st : GridSt) (o : Obj) (st' : GridSt), gridInv st →
      (∀ p ∈ st.objects, p.oid = o.oid → p = o) →
      gridRemoveObject st o = some st' → gridInv st') ∧
    (∀ (st st' : GridSt), gridInv st →
      gridProcessAgents perceive think δ st = some st' → gridInv st') ∧
    (∀ (st st' : GridSt), gridInv st → st.paused = false →
      gridUpdate cosDeg sinDeg perceive think δ st = some st' →
      gridInv st') :=
  ⟨fun _ _ _ hinv hf h => gridAdd_preserves hinv hf h,
   fun _ _ _ hinv hco h => gridRemove_preserves hinv hco h,
   fun _ _ hinv h => gridProcess_preserves hinv h,
   fun _ _ hinv _ h => gridUpdate_preserves hinv h⟩

/-- Concrete 1×1 grid world with one object, used to witness C1. -/
def stC1 : GridSt :=
  { gwidth := 1, gheight := 1, cell := 1, tor := false, agents := [],
    deadAgents := [], objects := [{ oid := 0 }], grid := [[[0]]],
    paused := false }

theorem C1_witness : gridInv stC1 :=
  (C1_grid_correspondence (fun _ => 0) (fun _ => 0) (fun _ _ => [])
      (fun _ _ => []) 1).2.2.2 stC1 stC1
    (by with_unfolding_all decide) rfl (by with_unfolding_all decide)

/-- Concrete toroidal 2×2 grid world and an object at `x = 1.5`:
`round(1.5) = 2` escapes the wraparound test (`1.5 > 2 - 0.5` is false), so
`add_object` raises `IndexError`.  This refutes C2 as stated. -/
def stC2 : GridSt :=
  { gwidth := 2, gheight := 2, cell := 1, tor := true, agents := [],
    deadAgents := [], objects := [], grid := [[[], []], [[], []]],
    paused := false }

def objC2 : Obj := { oid := 7, x := 3/2, y := 0 }

theorem C2_counterexample :
    torFix 2 (3/2) = 3/2 ∧ pyround ((3 : ℚ)/2) = 2 ∧
      gridAddObject stC2 objC2 = none := by
  refine ⟨?_, ?_, ?_⟩ <;> with_unfolding_all decide

/-- C2 (amended): on a toroidal grid, the modulo wraparound of `add_object`
and `update` (`torFix` on each coordinate) keeps the rounded coordinate
within `[0, width-1]` — so the grid-cell indexing is in bounds — for every
rational coordinate except the single point `width - 1/2` on an axis of
even extent, where Python's round-half-to-even yields `width` and the
indexing raises `IndexError`. -/
theorem C2_tor_wrap_bounds (w : ℤ) (x : ℚ) (hw : 1 ≤ w)
    (hx : x = (w : ℚ) - 1/2 → ¬ 2 ∣ w) :
    0 ≤ pyround (torFix w x) ∧ pyround (torFix w x) < w ∧
    pyIdx w.toNat (pyround (torFix w x)) =
      some (pyround (torFix w x)).toNat := by
  have hb : 0 ≤ pyround (torFix w x) ∧ pyround (torFix w x) < w := by
    unfold torFix
    split <;> rename_i hcond
    · rw [pyround_intCast]
      exact ⟨Int.emod_nonneg _ (by omega), Int.emod_lt_of_pos _ (by omega)⟩
    · push_neg at hcond
      obtain ⟨h1, h2⟩ := hcond
      refine ⟨pyround_nonneg (by linarith), ?_⟩
      rcases eq_or_lt_of_le h1 with heq | hlt
      · have hodd : ¬ 2 ∣ w := hx heq
        have hcast : (w : ℚ) - 1/2 = ((w - 1 : ℤ) : ℚ) + 1/2 := by
          push_cast
          ring
        rw [heq, hcast, pyround_half, if_pos (by omega : 2 ∣ w - 1)]
        omega
      · exact pyround_lt_int (by linarith)
  refine ⟨hb.1, hb.2, ?_⟩
  refine pyIdx_of_nonneg hb.1 ?_
  rw [Int.toNat_of_nonneg (by omega : (0 : ℤ) ≤ w)]
  exact hb.2

theorem C2_witness :
    0 ≤ pyround (torFix 2 (1/4)) ∧ pyround (torFix 2 (1/4)) < 2 ∧
    pyIdx (2 : ℤ).toNat (pyround (torFix 2 (1/4))) =
      some (pyround (torFix 2 (1/4))).toNat :=
  C2_tor_wrap_bounds 2 (1/4) (by norm_num)
    (fun h => absurd h (by norm_num))

/-- C4: with the pause flag raised, `update(delta)` leaves the whole world
state unchanged, in all three world classes; the flag is checked before any
agent or object is touched. -/
theorem C4_paused_noop (cosDeg sinDeg : ℚ → ℚ)
    (perceive : AgentM → Option Obj → List ℚ)
    (think : AgentM → ℚ → List (Obj → Obj)) (δ : ℚ) :
    (∀ st : WorldSt, st.paused = true →
      worldUpdate cosDeg sinDeg perceive think δ st = some st) ∧
    (∀ st : World2DSt, st.paused = true →
      world2DUpdate cosDeg sinDeg perceive think δ st = some st) ∧
    (∀ st : GridSt, st.paused = true →
      gridUpdate cosDeg sinDeg perceive think δ st = some st) := by
  refine ⟨?_, ?_, ?_⟩ <;> intro st hp
  · unfold worldUpdate
    rw [if_pos hp]
  · unfold world2DUpdate
    rw [if_pos hp]
  · unfold gridUpdate
    rw [if_pos hp]

/-- Concrete paused worlds used to witness C4. -/
def stC4a : WorldSt := { objects := [{ oid := 3, x := 9 }] }

def stC4b : World2DSt := { objects := [{ oid := 3, x := 9 }] }

def stC4c : GridSt := { objects := [{ oid := 3, x := 9 }], grid := [] }

theorem C4_witness :
    worldUpdate (fun _ => 0) (fun _ => 0) (fun _ _ => []) (fun _ _ => []) 1
      stC4a = some stC4a ∧
    world2DUpdate (fun _ => 0) (fun _ => 0) (fun _ _ => []) (fun _ _ => []) 1
      stC4b = some stC4b ∧
    gridUpdate (fun _ => 0) (fun _ => 0) (fun _ _ => []) (fun _ _ => []) 1
      stC4c = some stC4c :=
  ⟨(C4_paused_noop _ _ _ _ 1).1 stC4a rfl,
   (C4_paused_noop _ _ _ _ 1).2.1 stC4b rfl,
   (C4_paused_noop _ _ _ _ 1).2.2 stC4c rfl⟩

theorem oid_mem_iff_any (objs : List Obj) (i : ℕ) :
    i ∈ objs.map Obj.oid ↔ objs.any (fun p => p.oid == i) = true := by
  rw [List.any_eq_true]
  constructor
  · intro h
    rcases List.mem_map.mp h with ⟨p, hp, rfl⟩
    exact ⟨p, hp, by simp⟩
  · intro ⟨p, hp, hbeq⟩
    have : p.oid = i := by simpa using hbeq
    exact this ▸ List.mem_map_of_mem _ hp

theorem aid_mem_iff_any (agents : List AgentM) (i : ℕ) :
    i ∈ agents.map AgentM.aid ↔ agents.any (fun p => p.aid == i) = true := by
  rw [List.any_eq_true]
  constructor
  · intro h
    rcases List.mem_map.mp h with ⟨p, hp, rfl⟩
    exact ⟨p, hp, by simp⟩
  · intro ⟨p, hp, hbeq⟩
    have : p.aid = i := by simpa using hbeq
    exact this ▸ List.mem_map_of_mem _ hp

theorem gridCellRemove_gridMem {g g' : Grid} {r c : ℤ} {i : ℕ}
    (h : gridCellRemove g r c i = some g') : gridMem g i := by
  obtain ⟨cell, cell', h1, h2, -⟩ := pyCellGet_modify_target h
  have hmem : i ∈ cell := by
    by_cases hm : i ∈ cell
    · exact hm
    · rw [if_neg hm] at h2
      cases h2
  obtain ⟨row, hr1, hr2⟩ := pyCellGet_mem h1
  exact ⟨row, hr1, cell, hr2, hmem⟩

/-- C3 (amended): misuse of the removal operations prints a console warning,
raises nothing and leaves the world unchanged for `World.remove_object`,
`World._remove_agent`, and `World2DGrid.remove_object` applied to an agent's
body; but `World2DGrid.remove_object` applied to a non-body object that is
not in the world (nor anywhere in the grid) raises `ValueError` from the
grid-cell removal after printing the warning. -/
theorem C3_removal_misuse :
    (∀ (st : WorldSt) (o : Obj),
      o.isBody = true ∨ o.oid ∉ st.objects.map Obj.oid →
      removeObjectWarns st.objects o = true ∧ worldRemoveObject st o = st) ∧
    (∀ (st : WorldSt) (a : AgentM), a.aid ∉ st.agents.map AgentM.aid →
      removeAgentWarns st.agents a = true ∧ worldRemoveAgent st a = st) ∧
    (∀ (st : GridSt) (o : Obj), o.isBody = true →
      removeObjectWarns st.objects o = true ∧
        gridRemoveObject st o = some st) ∧
    (∀ (st : GridSt) (o : Obj), o.isBody = false →
      o.oid ∉ st.objects.map Obj.oid → ¬ gridMem st.grid o.oid →
      gridRemoveObject st o = none) := by
  refine ⟨?_, ?_, ?_, ?_⟩
  · intro st o hmis
    constructor
    · unfold removeObjectWarns
      rcases hmis with hb | hm
      · rw [hb]
        rfl
      · have hany : st.objects.any (fun p => p.oid == o.oid) = false := by
          rw [Bool.eq_false_iff]
          intro hc
          exact hm ((oid_mem_iff_any st.objects o.oid).mpr hc)
        rw [hany]
        simp
    · unfold worldRemoveObject
      rw [if_neg]
      rintro ⟨h1, h2⟩
      rcases hmis with hb | hm
      · rw [hb] at h1
        cases h1
      · exact hm h2
  · intro st a hmis
    constructor
    · have hany : st.agents.any (fun p => p.aid == a.aid) = false := by
        rw [Bool.eq_false_iff]
        intro hc
        exact hmis ((aid_mem_iff_any st.agents a.aid).mpr hc)
      unfold removeAgentWarns
      rw [hany]
      rfl
    · unfold worldRemoveAgent
      rw [if_neg hmis]
  · intro st o hb
    constructor
    · unfold removeObjectWarns
      rw [hb]
      rfl
    · unfold gridRemoveObject
      rw [if_neg (by rw [hb]; intro hc; cases hc), if_neg]
      rintro ⟨h1, -⟩
      rw [hb] at h1
      cases h1
  · intro st o hb hm hg
    unfold gridRemoveObject
    rw [if_pos hb]
    cases hrem : gridCellRemove st.grid (pyround o.y) (pyround o.x) o.oid with
    | none => rfl
    | some g' => exact absurd (gridCellRemove_gridMem hrem) hg

/-- A 1×1 grid world with no objects and an object that was never added:
`World2DGrid.remove_object` on it prints the warning and then raises
`ValueError` in `self._grid[round(obj.y)][round(obj.x)].remove(obj)`.  This
refutes C3 as stated. -/
def stC3 : GridSt :=
  { gwidth := 1, gheight := 1, cell := 1, tor := false, grid := [[[]]] }

def objC3 : Obj := { oid := 5 }

def stC3w : WorldSt := { objects := [{ oid := 1 }] }

theorem C3_counterexample : gridRemoveObject stC3 objC3 = none := by
  with_unfolding_all decide

theorem C3_witness :
    (removeObjectWarns stC3w.objects objC3 = true ∧
      worldRemoveObject stC3w objC3 = stC3w) ∧
    gridRemoveObject stC3 objC3 = none :=
  ⟨C3_removal_misuse.1 stC3w objC3 (Or.inr (by with_unfolding_all decide)),
   C3_removal_misuse.2.2.2 stC3 objC3 rfl (by with_unfolding_all decide)
     (by with_unfolding_all decide)⟩

/-! ### Bounds clamping (C5) -/

theorem clampVal_bounds {w : ℚ} (hw : 0 ≤ w) (x : ℚ) :
    0 ≤ (if (if x > w then w else x) < 0 then 0
          else (if x > w then w else x)) ∧
    (if (if x > w then w else x) < 0 then 0
      else (if x > w then w else x)) ≤ w := by
  split_ifs <;> constructor <;> linarith

theorem clamp2D_x (w h : ℚ) (o : Obj) :
    (clamp2D w h o).x = (if (if o.x > w then w else o.x) < 0 then 0
      else (if o.x > w then w else o.x)) := rfl

theorem clamp2D_y (w h : ℚ) (o : Obj) :
    (clamp2D w h o).y = (if (if o.y > h then h else o.y) < 0 then 0
      else (if o.y > h then h else o.y)) := rfl

theorem clamp2D_bounds {w h : ℚ} (hw : 0 ≤ w) (hh : 0 ≤ h) (o : Obj) :
    0 ≤ (clamp2D w h o).x ∧ (clamp2D w h o).x ≤ w ∧
    0 ≤ (clamp2D w h o).y ∧ (clamp2D w h o).y ≤ h := by
  rw [clamp2D_x, clamp2D_y]
  obtain ⟨h1, h2⟩ := clampVal_bounds hw o.x
  obtain ⟨h3, h4⟩ := clampVal_bounds hh o.y
  exact ⟨h1, h2, h3, h4⟩

theorem clampGrid_eq (w : ℤ) (x : ℚ) :
    clampGrid w x = (if (if x > (w : ℚ) - 1 then (w : ℚ) - 1 else x) < 0
      then 0 else (if x > (w : ℚ) - 1 then (w : ℚ) - 1 else x)) := rfl

theorem clampGrid_bounds {w : ℤ} (hw : 1 ≤ w) (x : ℚ) :
    0 ≤ clampGrid w x ∧ clampGrid w x ≤ (w : ℚ) - 1 := by
  have hw' : (1 : ℚ) ≤ (w : ℚ) := by exact_mod_cast hw
  rw [clampGrid_eq]
  split_ifs <;> constructor <;> linarith

theorem gridBoundsFix_x (w h : ℤ) (o : Obj) :
    (gridBoundsFix false w h o).x = clampGrid w o.x := rfl

theorem gridBoundsFix_y (w h : ℤ) (o : Obj) :
    (gridBoundsFix false w h o).y = clampGrid h o.y := rfl

theorem gridObjLoop_bounds (cosDeg sinDeg : ℚ → ℚ) (δ : ℚ) {w h : ℤ}
    (hw : 1 ≤ w) (hh : 1 ≤ h) :
    ∀ (objs : List Obj) (g : Grid) (r : List Obj × Grid),
      gridObjLoop cosDeg sinDeg δ false w h objs g = some r →
      ∀ o ∈ r.1, 0 ≤ o.x ∧ o.x ≤ (w : ℚ) - 1 ∧
        0 ≤ o.y ∧ o.y ≤ (h : ℚ) - 1 := by
  intro objs
  induction objs with
  | nil =>
    intro g r hl o ho
    simp only [gridObjLoop] at hl
    cases hl
    cases ho
  | cons p rest ih =>
    intro g r hl o ho
    simp only [gridObjLoop] at hl
    rcases Option.bind_eq_some.mp hl with ⟨g1, hg1, hl⟩
    rcases Option.bind_eq_some.mp hl with ⟨g2, hg2, hl⟩
    rcases Option.bind_eq_some.mp hl with ⟨r0, h0, h1⟩
    cases h1
    rcases List.mem_cons.mp ho with rfl | hmem
    · rw [gridBoundsFix_x, gridBoundsFix_y]
      obtain ⟨a1, a2⟩ := clampGrid_bounds hw
        (Obj.update cosDeg sinDeg δ p).x
      obtain ⟨a3, a4⟩ := clampGrid_bounds hh
        (Obj.update cosDeg sinDeg δ p).y
      exact ⟨a1, a2, a3, a4⟩
    · exact ih g2 r0 h0 o hmem

theorem clearedBody_coords {objs : List Obj} {bid : ℕ} (P : ℚ → ℚ → Prop)
    (h : ∀ o ∈ objs, P o.x o.y) : ∀ o ∈ clearedBody objs bid, P o.x o.y := by
  intro o ho
  rcases List.mem_map.mp ho with ⟨q, hq, heq⟩
  by_cases hb : q.oid = bid
  · rw [if_pos hb] at heq
    subst heq
    exact h q hq
  · rw [if_neg hb] at heq
    subst heq
    exact h q hq

theorem gridRemoveObject_objects_mem {st : GridSt} {o : Obj} {st' : GridSt}
    (h : gridRemoveObject st o = some st') :
    ∀ p ∈ st'.objects, p ∈ st.objects := by
  unfold gridRemoveObject at h
  by_cases hb : o.isBody = false
  · rw [if_pos hb] at h
    rcases Option.map_eq_some'.mp h with ⟨g', -, rfl⟩
    intro p hp
    have hp' : p ∈ (if o.isBody = false ∧ o.oid ∈ st.objects.map Obj.oid
        then st.objects.eraseP (fun q => q.oid == o.oid)
        else st.objects) := hp
    split at hp'
    · exact List.mem_of_mem_eraseP hp'
    · exact hp'
  · rw [if_neg hb] at h
    cases h
    intro p hp
    have hp' : p ∈ (if o.isBody = false ∧ o.oid ∈ st.objects.map Obj.oid
        then st.objects.eraseP (fun q => q.oid == o.oid)
        else st.objects) := hp
    split at hp'
    · exact List.mem_of_mem_eraseP hp'
    · exact hp'

theorem gridRemoveDeadOne_coords (P : ℚ → ℚ → Prop) {st : GridSt}
    {a : AgentM} {st' : GridSt} (h : gridRemoveDeadOne st a = some st')
    (hP : ∀ o ∈ st.objects, P o.x o.y) : ∀ o ∈ st'.objects, P o.x o.y := by
  unfold gridRemoveDeadOne at h
  cases hbid : a.bodyId with
  | none => rw [hbid] at h; cases h
  | some bid =>
    simp only [hbid] at h
    by_cases hk : a.keepBody = true
    · rw [if_pos hk] at h
      cases h
      exact clearedBody_coords P hP
    · rw [if_neg hk] at h
      cases hfind : findObj (clearedBody st.objects bid) bid with
      | none => rw [hfind] at h; cases h
      | some o =>
        rw [hfind] at h
        intro p hp
        have hp1 := gridRemoveObject_objects_mem h p hp
        exact clearedBody_coords P hP p hp1

theorem gridRemoveDead_coords (P : ℚ → ℚ → Prop) :
    ∀ (ds : List AgentM) (st st' : GridSt),
      List.foldlM gridRemoveDeadOne st ds = some st' →
      (∀ o ∈ st.objects, P o.x o.y) → ∀ o ∈ st'.objects, P o.x o.y := by
  intro ds
  induction ds with
  | nil =>
    intro st st' h hP
    cases h
    exact hP
  | cons a rest ih =>
    intro st st' h hP
    rw [List.foldlM_cons] at h
    rcases Option.bind_eq_some.mp h with ⟨st1, h1, h2⟩
    exact ih st1 st' h2 (gridRemoveDeadOne_coords P h1 hP)

theorem worldRemoveAgent_objects (st : WorldSt) (a : AgentM) :
    (worldRemoveAgent st a).objects = st.objects := by
  unfold worldRemoveAgent
  split <;> rfl

theorem removeDeadOne_coords (P : ℚ → ℚ → Prop) {st : WorldSt} {a : AgentM}
    {st' : WorldSt} (h : removeDeadOne st a = some st')
    (hP : ∀ o ∈ st.objects, P o.x o.y) : ∀ o ∈ st'.objects, P o.x o.y := by
  unfold removeDeadOne at h
  cases hbid : a.bodyId with
  | none => rw [hbid] at h; cases h
  | some bid =>
    simp only [hbid] at h
    by_cases hk : a.keepBody = true
    · rw [if_pos hk] at h
      cases h
      exact clearedBody_coords P hP
    · rw [if_neg hk] at h
      cases h
      intro p hp
      exact clearedBody_coords P hP p (List.mem_of_mem_eraseP hp)

theorem removeDead_coords (P : ℚ → ℚ → Prop) :
    ∀ (ds : List AgentM) (st st' : WorldSt),
      List.foldlM removeDeadOne st ds = some st' →
      (∀ o ∈ st.objects, P o.x o.y) → ∀ o ∈ st'.objects, P o.x o.y := by
  intro ds
  induction ds with
  | nil =>
    intro st st' h hP
    cases h
    exact hP
  | cons a rest ih =>
    intro st st' h hP
    rw [List.foldlM_cons] at h
    rcases Option.bind_eq_some.mp h with ⟨st1, h1, h2⟩
    exact ih st1 st' h2 (removeDeadOne_coords P h1 hP)

theorem removeDeadAgents_coords (P : ℚ → ℚ → Prop) {st st' : WorldSt}
    (h : removeDeadAgents st = some st')
    (hP : ∀ o ∈ st.objects, P o.x o.y) : ∀ o ∈ st'.objects, P o.x o.y := by
  unfold removeDeadAgents at h
  rcases Option.bind_eq_some.mp h with ⟨st1, h1, h2⟩
  cases h2
  exact removeDead_coords P st.deadAgents st st1 h1 hP

/-! ### The agent update discipline (C6) -/

/-- The effect of `_remove_agent` on the agent list. -/
def removeAgentL (agents : List AgentM) (a : AgentM) : List AgentM :=
  if a.aid ∈ agents.map AgentM.aid
  then agents.eraseP (fun p => p.aid == a.aid) else agents

theorem worldRemoveAgent_agents (st : WorldSt) (a : AgentM) :
    (worldRemoveAgent st a).agents = removeAgentL st.agents a := by
  unfold worldRemoveAgent removeAgentL
  split <;> rfl

/-- The live agent whose body is the object `o`, if any. -/
def liveOwner (agents : List AgentM) (o : Obj) : Option AgentM :=
  agents.find? (fun a => !a.dead && a.bodyId == some o.oid)

theorem refreshAgent_dead (perceive : AgentM → Option Obj → List ℚ)
    (a : AgentM) (b : Option Obj) :
    (refreshAgent perceive a b).dead = a.dead := rfl

theorem refreshAgent_aid (perceive : AgentM → Option Obj → List ℚ)
    (a : AgentM) (b : Option Obj) :
    (refreshAgent perceive a b).aid = a.aid := rfl

theorem findObj_replaceObj_ne {objs : List Obj} {bid : ℕ} {o' : Obj}
    (h : o'.oid = bid) {bid2 : ℕ} (hne : bid2 ≠ bid) :
    findObj (replaceObj objs bid o') bid2 = findObj objs bid2 := by
  unfold findObj replaceObj
  induction objs with
  | nil => rfl
  | cons p rest ih =>
    rw [List.map_cons]
    by_cases hp : p.oid = bid
    · rw [if_pos hp]
      have h1 : (o'.oid == bid2) = false := by
        have h3 : o'.oid ≠ bid2 := by
          rw [h]
          exact fun hc => hne hc.symm
        simpa using h3
      have h2 : (p.oid == bid2) = false := by
        have h3 : p.oid ≠ bid2 := by
          rw [hp]
          exact fun hc => hne hc.symm
        simpa using h3
      simp only [List.find?, h1, h2]
      exact ih
    · rw [if_neg hp]
      cases hp2 : (p.oid == bid2) with
      | true => simp only [List.find?, hp2]
      | false =>
        simp only [List.find?, hp2]
        exact ih

theorem findObj_none {objs : List Obj} {bid : ℕ}
    (h : findObj objs bid = none) : ∀ o ∈ objs, o.oid ≠ bid := by
  intro o ho
  have := List.find?_eq_none.mp h o ho
  simpa using this

/-- The value an object ends with after one pass of `process_agents`: its
live owner's refreshed think-actions applied in order, or the object itself
when no live agent owns it. -/
def ownedStep (perceive : AgentM → Option Obj → List ℚ)
    (think : AgentM → ℚ → List (Obj → Obj)) (δ : ℚ) (ags : List AgentM)
    (o : Obj) : Obj :=
  match liveOwner ags o with
  | some a => agentBodyStep perceive think δ a o
  | none => o

theorem liveOwner_nil (o : Obj) : liveOwner [] o = none := rfl

theorem liveOwner_cons_dead {a : AgentM} (rest : List AgentM) (o : Obj)
    (hd : a.dead = true) : liveOwner (a :: rest) o = liveOwner rest o := by
  unfold liveOwner
  simp [List.find?, hd]

theorem liveOwner_cons_not_body {a : AgentM} (rest : List AgentM) (o : Obj)
    (hnb : (a.bodyId == some o.oid) = false) :
    liveOwner (a :: rest) o = liveOwner rest o := by
  unfold liveOwner
  simp [List.find?, hnb]

theorem liveOwner_cons_body {a : AgentM} (rest : List AgentM) (o : Obj)
    (hd : a.dead = false) (hb : a.bodyId = some o.oid) :
    liveOwner (a :: rest) o = some a := by
  unfold liveOwner
  simp [List.find?, hd, hb]

theorem liveOwner_some {ags : List AgentM} {o : Obj} {b : AgentM}
    (h : liveOwner ags o = some b) :
    b ∈ ags ∧ b.dead = false ∧ b.bodyId = some o.oid := by
  unfold liveOwner at h
  refine ⟨List.mem_of_find?_eq_some h, ?_⟩
  have h2 := List.find?_some h
  simp only [Bool.and_eq_true, Bool.not_eq_true', beq_iff_eq] at h2
  exact h2

/-- Specification of one pass of `World.process_agents(delta)`: every live
agent is updated exactly once (its perceptions refreshed from its current
body), every agent that is dead at its turn is collected (in order) and not
updated, and every object is transformed exactly once by its live owner's
refreshed action list — or left alone if no live agent owns it. -/
theorem processGo_spec (perceive : AgentM → Option Obj → List ℚ)
    (think : AgentM → ℚ → List (Obj → Obj)) (δ : ℚ) :
    ∀ (ags : List AgentM) (objs : List Obj),
      (objs.map Obj.oid).Nodup →
      ((ags.filter (fun a => !a.dead)).filterMap AgentM.bodyId).Nodup →
      (processAgentsGo perceive think δ ags objs).1 =
        ags.map (fun a => if a.dead then a
          else refreshAgent perceive a (a.bodyId.bind (findObj objs))) ∧
      (processAgentsGo perceive think δ ags objs).2.2 =
        ags.filter (fun a => a.dead) ∧
      (processAgentsGo perceive think δ ags objs).2.1 =
        objs.map (ownedStep perceive think δ ags) := by
  intro ags
  induction ags with
  | nil =>
    intro objs hnd hbd
    refine ⟨rfl, rfl, ?_⟩
    show objs = objs.map (ownedStep perceive think δ [])
    have h2 : ∀ o ∈ objs, ownedStep perceive think δ [] o = o := by
      intro o _
      unfold ownedStep
      rw [liveOwner_nil]
    rw [List.map_congr_left h2]
    simp
  | cons a rest ih =>
    intro objs hnd hbd
    simp only [processAgentsGo]
    by_cases hd : a.dead = true
    · rw [if_pos hd]
      have hbd' : ((rest.filter (fun x => !x.dead)).filterMap
          AgentM.bodyId).Nodup := by
        rw [List.filter_cons, if_neg (by simp [hd])] at hbd
        exact hbd
      obtain ⟨ih1, ih2, ih3⟩ := ih objs hnd hbd'
      refine ⟨?_, ?_, ?_⟩
      · rw [List.map_cons, if_pos hd]
        exact congrArg _ ih1
      · rw [List.filter_cons, if_pos hd]
        exact congrArg _ ih2
      · rw [ih3]
        refine List.map_congr_left ?_
        intro p _
        unfold ownedStep
        rw [liveOwner_cons_dead rest p hd]
    · have hd' : a.dead = false := by simpa using hd
      rw [if_neg hd]
      cases hfind : a.bodyId.bind (findObj objs) with
      | none =>
        simp only [hfind]
        have hbd' : ((rest.filter (fun x => !x.dead)).filterMap
            AgentM.bodyId).Nodup := by
          rw [List.filter_cons, if_pos (by simp [hd'])] at hbd
          cases habid : a.bodyId with
          | none => rw [List.filterMap_cons_none habid] at hbd; exact hbd
          | some bid2 =>
            rw [List.filterMap_cons_some habid] at hbd
            exact (List.nodup_cons.mp hbd).2
        obtain ⟨ih1, ih2, ih3⟩ := ih objs hnd hbd'
        refine ⟨?_, ?_, ?_⟩
        · rw [List.map_cons, if_neg hd, hfind]
          exact congrArg _ ih1
        · rw [List.filter_cons, if_neg (by simp [hd'])]
          exact ih2
        · rw [ih3]
          refine List.map_congr_left ?_
          intro p hp
          unfold ownedStep
          rw [liveOwner_cons_not_body rest p ?_]
          cases habid : a.bodyId with
          | none => simp
          | some bid2 =>
            rw [habid] at hfind
            simp only [Option.some_bind] at hfind
            have h3 := findObj_none hfind p hp
            simp only [habid, beq_eq_false_iff_ne, ne_eq, Option.some.injEq]
            exact fun he => h3 he.symm
      | some o =>
        simp only [hfind]
        cases habid : a.bodyId with
        | none => rw [habid] at hfind; cases hfind
        | some bid =>
          rw [habid] at hfind
          simp only [Option.some_bind] at hfind
          obtain ⟨homem, hooid⟩ := findObj_some hfind
          have hfl : (a :: rest).filter (fun x => !x.dead) =
              a :: rest.filter (fun x => !x.dead) := by
            rw [List.filter_cons, if_pos (by simp [hd'])]
          rw [hfl, List.filterMap_cons_some habid] at hbd
          have hbidnotin : bid ∉ (rest.filter (fun x => !x.dead)).filterMap
              AgentM.bodyId := (List.nodup_cons.mp hbd).1
          have hbd' := (List.nodup_cons.mp hbd).2
          set o2 : Obj :=
            applyActs (think (refreshAgent perceive a (some o)) δ) o with ho2
          have ho2oid : o2.oid = o.oid := applyActs_oid _ _
          have hnd' : ((replaceObj objs o.oid o2).map Obj.oid).Nodup := by
            rw [replaceObj_map_oid ho2oid]
            exact hnd
          obtain ⟨ih1, ih2, ih3⟩ := ih (replaceObj objs o.oid o2) hnd' hbd'
          refine ⟨?_, ?_, ?_⟩
          · rw [List.map_cons, if_neg hd, habid]
            simp only [Option.some_bind]
            rw [hfind]
            refine congrArg _ (ih1.trans (List.map_congr_left ?_))
            intro b hb
            by_cases hbd2 : b.dead = true
            · rw [if_pos hbd2, if_pos hbd2]
            · rw [if_neg hbd2, if_neg hbd2]
              cases hbbid : b.bodyId with
              | none => rfl
              | some bid2 =>
                simp only [Option.some_bind]
                have hne : bid2 ≠ bid := by
                  intro he
                  apply hbidnotin
                  rw [← he]
                  exact List.mem_filterMap.mpr ⟨b,
                    List.mem_filter.mpr ⟨hb, by simp [Bool.not_eq_true', hbd2]⟩,
                    hbbid⟩
                rw [findObj_replaceObj_ne ho2oid (by rw [hooid]; exact hne)]
          · rw [List.filter_cons, if_neg (by simp [hd'])]
            exact ih2
          · rw [ih3]
            have hro : replaceObj objs o.oid o2 =
                objs.map (fun p => if p.oid = o.oid then o2 else p) := rfl
            rw [hro, List.map_map]
            refine List.map_congr_left ?_
            intro p hp
            by_cases hpo : p.oid = o.oid
            · have hpe : p = o := oid_injOn hnd hp homem hpo
              simp only [Function.comp, if_pos hpo]
              have hnone : liveOwner (rest.filter (fun x => !x.dead)) o2 =
                  none ∨ True := Or.inr trivial
              have hlo : liveOwner rest o2 = none := by
                cases hlo2 : liveOwner rest o2 with
                | none => rfl
                | some b =>
                  exfalso
                  obtain ⟨hb1, hb2, hb3⟩ := liveOwner_some hlo2
                  apply hbidnotin
                  have : b.bodyId = some bid := by
                    rw [hb3, ho2oid, hooid]
                  exact List.mem_filterMap.mpr ⟨b,
                    List.mem_filter.mpr ⟨hb1, by simp [Bool.not_eq_true', hb2]⟩,
                    this⟩
              unfold ownedStep
              rw [hlo, liveOwner_cons_body rest p hd'
                (by rw [habid, hpo, hooid])]
              rw [hpe]
              rfl
            · simp only [Function.comp, if_neg hpo]
              unfold ownedStep
              rw [liveOwner_cons_not_body rest p
                (by simp only [habid, beq_eq_false_iff_ne, ne_eq,
                      Option.some.injEq]
                    exact fun he => hpo (hooid.trans he).symm)]

theorem removeDeadOne_agents {st : WorldSt} {a : AgentM} {st' : WorldSt}
    (h : removeDeadOne st a = some st') :
    st'.agents = removeAgentL st.agents a ∧
      st'.deadAgents = st.deadAgents := by
  unfold removeDeadOne at h
  cases hbid : a.bodyId with
  | none => rw [hbid] at h; cases h
  | some bid =>
    simp only [hbid] at h
    by_cases hk : a.keepBody = true
    · rw [if_pos hk] at h
      cases h
      exact ⟨worldRemoveAgent_agents st a, rfl⟩
    · rw [if_neg hk] at h
      cases h
      exact ⟨worldRemoveAgent_agents st a, rfl⟩

theorem foldRemoveDead_agents :
    ∀ (ds : List AgentM) (st st' : WorldSt),
      List.foldlM removeDeadOne st ds = some st' →
      st'.agents = ds.foldl removeAgentL st.agents ∧
        st'.deadAgents = st.deadAgents := by
  intro ds
  induction ds with
  | nil =>
    intro st st' h
    cases h
    exact ⟨rfl, rfl⟩
  | cons a rest ih =>
    intro st st' h
    rw [List.foldlM_cons] at h
    rcases Option.bind_eq_some.mp h with ⟨st1, h1, h2⟩
    obtain ⟨ha, hd⟩ := removeDeadOne_agents h1
    obtain ⟨ha2, hd2⟩ := ih st1 st' h2
    rw [List.foldl_cons]
    exact ⟨ha2.trans (by rw [ha]), hd2.trans hd⟩

theorem removeAgentL_cons_ne {as : List AgentM} {a d : AgentM}
    (hne : d.aid ≠ a.aid) :
    removeAgentL (a :: as) d = a :: removeAgentL as d := by
  unfold removeAgentL
  by_cases hm : d.aid ∈ as.map AgentM.aid
  · rw [if_pos (by rw [List.map_cons]; exact List.mem_cons_of_mem _ hm),
      if_pos hm, List.eraseP_cons_of_neg (by simpa using fun h => hne h.symm)]
  · rw [if_neg ?_, if_neg hm]
    rw [List.map_cons]
    intro hc
    rcases List.mem_cons.mp hc with h1 | h1
    · exact hne h1
    · exact hm h1

theorem foldRemove_cons_comm :
    ∀ (ds : List AgentM) (as : List AgentM) (a : AgentM),
      (∀ d ∈ ds, d.aid ≠ a.aid) →
      ds.foldl removeAgentL (a :: as) = a :: ds.foldl removeAgentL as := by
  intro ds
  induction ds with
  | nil => intro as a _; rfl
  | cons d rest ih =>
    intro as a hne
    rw [List.foldl_cons, List.foldl_cons,
      removeAgentL_cons_ne (hne d (List.mem_cons_self _ _))]
    exact ih _ a (fun d2 h2 => hne d2 (List.mem_cons_of_mem _ h2))

/-- Erasing, one by one, the dead agents from an agent list with distinct
ids leaves exactly the live agents. -/
theorem foldRemove_filter :
    ∀ {as : List AgentM}, (as.map AgentM.aid).Nodup →
      (as.filter (fun x => x.dead)).foldl removeAgentL as =
        as.filter (fun x => !x.dead) := by
  intro as
  induction as with
  | nil => intro _; rfl
  | cons a rest ih =>
    intro hnd
    rw [List.map_cons, List.nodup_cons] at hnd
    by_cases hd : a.dead = true
    · rw [List.filter_cons, if_pos (by simpa using hd), List.foldl_cons]
      have h1 : removeAgentL (a :: rest) a = rest := by
        unfold removeAgentL
        rw [if_pos (by rw [List.map_cons]; exact List.mem_cons_self _ _),
          List.eraseP_cons_of_pos (by simp)]
      rw [h1, List.filter_cons, if_neg (by simp [hd]), ih hnd.2]
    · rw [List.filter_cons, if_neg (by simpa using hd)]
      have hne : ∀ d ∈ rest.filter (fun x => x.dead), d.aid ≠ a.aid := by
        intro d hdm
        intro he
        exact hnd.1 (he ▸ List.mem_map_of_mem _ (List.mem_of_mem_filter hdm))
      rw [foldRemove_cons_comm _ rest a hne, ih hnd.2, List.filter_cons,
        if_pos (by simp [hd])]

theorem map_aid_step (perceive : AgentM → Option Obj → List ℚ)
    (f : AgentM → Option Obj) (ags : List AgentM) :
    (ags.map (fun a => if a.dead then a
      else refreshAgent perceive a (f a))).map AgentM.aid =
      ags.map AgentM.aid := by
  rw [List.map_map]
  refine List.map_congr_left ?_
  intro a _
  by_cases hd : a.dead = true <;> simp [hd, Function.comp, refreshAgent]

theorem filter_dead_step (perceive : AgentM → Option Obj → List ℚ)
    (f : AgentM → Option Obj) (ags : List AgentM) :
    (ags.map (fun a => if a.dead then a
      else refreshAgent perceive a (f a))).filter (fun x => x.dead) =
      ags.filter (fun x => x.dead) := by
  induction ags with
  | nil => rfl
  | cons a rest ih =>
    by_cases hd : a.dead = true
    · simp [hd, ih]
    · simp [hd, refreshAgent]
      simpa [refreshAgent] using ih

/-- C6: during an unpaused `World.update(delta)` tick (agent and object
identities distinct, live agents with distinct bodies, no dead agents
pending from a previous tick), each live agent has its update run exactly
once — its perceptions are refreshed from its current body and then the
actions returned by `_think` are executed in order on that body — each
agent that is dead is not updated but collected, and the collected dead
agents are removed from the agent list at the end of the tick. -/
theorem C6_agent_update_once (cosDeg sinDeg : ℚ → ℚ)
    (perceive : AgentM → Option Obj → List ℚ)
    (think : AgentM → ℚ → List (Obj → Obj)) (δ : ℚ)
    (st st' : WorldSt) (hp : st.paused = false) (hde : st.deadAgents = [])
    (hnda : (st.agents.map AgentM.aid).Nodup)
    (hndo : (st.objects.map Obj.oid).Nodup)
    (hbd : ((st.agents.filter (fun a => !a.dead)).filterMap
      AgentM.bodyId).Nodup)
    (h : worldUpdate cosDeg sinDeg perceive think δ st = some st') :
    (worldProcessAgents perceive think δ st).agents =
      st.agents.map (fun a => if a.dead then a
        else refreshAgent perceive a (a.bodyId.bind (findObj st.objects))) ∧
    (worldProcessAgents perceive think δ st).deadAgents =
      st.agents.filter (fun a => a.dead) ∧
    (worldProcessAgents perceive think δ st).objects =
      st.objects.map (ownedStep perceive think δ st.agents) ∧
    st'.agents = ((worldProcessAgents perceive think δ st).agents).filter
      (fun a => !a.dead) := by
  obtain ⟨h1, h2, h3⟩ :=
    processGo_spec perceive think δ st.agents st.objects hndo hbd
  have hpa : (worldProcessAgents perceive think δ st).agents =
      st.agents.map (fun a => if a.dead then a
        else refreshAgent perceive a (a.bodyId.bind (findObj st.objects))) :=
    h1
  have hpd : (worldProcessAgents perceive think δ st).deadAgents =
      st.agents.filter (fun a => a.dead) := by
    show st.deadAgents ++ (processAgentsGo perceive think δ st.agents
      st.objects).2.2 = _
    rw [hde, List.nil_append]
    exact h2
  have hpo : (worldProcessAgents perceive think δ st).objects =
      st.objects.map (ownedStep perceive think δ st.agents) := h3
  refine ⟨hpa, hpd, hpo, ?_⟩
  unfold worldUpdate at h
  rw [hp] at h
  simp only [Bool.false_eq_true, if_false] at h
  unfold removeDeadAgents at h
  rcases Option.bind_eq_some.mp h with ⟨stx, hx, hfin⟩
  cases hfin
  obtain ⟨hxa, -⟩ := foldRemoveDead_agents _ _ _ hx
  show stx.agents = _
  rw [hxa]
  have hds : ({ worldProcessAgents perceive think δ st with
      objects := (worldProcessAgents perceive think δ st).objects.map
        (Obj.update cosDeg sinDeg δ) } : WorldSt).deadAgents =
      st.agents.filter (fun a => a.dead) := hpd
  rw [hds]
  have hag : ({ worldProcessAgents perceive think δ st with
      objects := (worldProcessAgents perceive think δ st).objects.map
        (Obj.update cosDeg sinDeg δ) } : WorldSt).agents =
      (worldProcessAgents perceive think δ st).agents := rfl
  rw [hag, hpa]
  have hfd : st.agents.filter (fun a => a.dead) =
      (st.agents.map (fun a => if a.dead then a
        else refreshAgent perceive a (a.bodyId.bind
          (findObj st.objects)))).filter (fun x => x.dead) :=
    (filter_dead_step perceive _ st.agents).symm
  rw [hfd]
  refine foldRemove_filter ?_
  rw [map_aid_step]
  exact hnda

/-- A world with one live and one dead agent, each owning a body, used to
witness C6; `stC6r` is the state after one unpaused update. -/
def stC6 : WorldSt :=
  { agents := [{ aid := 1, bodyId := some 10 },
               { aid := 2, bodyId := some 20, dead := true }],
    objects := [{ oid := 10 }, { oid := 20 }], paused := false }

def stC6r : WorldSt :=
  { agents := [{ aid := 1, bodyId := some 10 }],
    objects := [{ oid := 10 }], paused := false }

theorem C6_witness :
    (worldProcessAgents (fun _ _ => []) (fun _ _ => []) 1 stC6).agents =
      stC6.agents.map (fun a => if a.dead then a
        else refreshAgent (fun _ _ => []) a
          (a.bodyId.bind (findObj stC6.objects))) ∧
    (worldProcessAgents (fun _ _ => []) (fun _ _ => []) 1 stC6).deadAgents =
      stC6.agents.filter (fun a => a.dead) ∧
    (worldProcessAgents (fun _ _ => []) (fun _ _ => []) 1 stC6).objects =
      stC6.objects.map (ownedStep (fun _ _ => []) (fun _ _ => []) 1
        stC6.agents) ∧
    stC6r.agents =
      ((worldProcessAgents (fun _ _ => []) (fun _ _ => []) 1 stC6).agents).filter
        (fun a => !a.dead) :=
  C6_agent_update_once (fun _ => 0) (fun _ => 0) (fun _ _ => [])
    (fun _ _ => []) 1 stC6 stC6r rfl rfl (by decide) (by decide) (by decide)
    (by with_unfolding_all decide)

/-- C5: after every unpaused `World2D.update(delta)` (on a world of
nonnegative extent), every object satisfies `0 ≤ x ≤ width` and
`0 ≤ y ≤ height`; after every unpaused non-toroidal `World2DGrid.update`
(on a grid of at least one cell per axis) that completes, every object
satisfies `0 ≤ x ≤ grid_width - 1` and `0 ≤ y ≤ grid_height - 1`. -/
theorem C5_bounds_after_update (cosDeg sinDeg : ℚ → ℚ)
    (perceive : AgentM → Option Obj → List ℚ)
    (think : AgentM → ℚ → List (Obj → Obj)) (δ : ℚ) :
    (∀ (st st' : World2DSt), st.paused = false → 0 ≤ st.width →
      0 ≤ st.height →
      world2DUpdate cosDeg sinDeg perceive think δ st = some st' →
      ∀ o ∈ st'.objects,
        0 ≤ o.x ∧ o.x ≤ st.width ∧ 0 ≤ o.y ∧ o.y ≤ st.height) ∧
    (∀ (st st' : GridSt), st.paused = false → st.tor = false →
      1 ≤ st.gwidth → 1 ≤ st.gheight →
      gridUpdate cosDeg sinDeg perceive think δ st = some st' →
      ∀ o ∈ st'.objects, 0 ≤ o.x ∧ o.x ≤ (st.gwidth : ℚ) - 1 ∧
        0 ≤ o.y ∧ o.y ≤ (st.gheight : ℚ) - 1) := by
  constructor
  · intro st st' hp hw hh h
    unfold world2DUpdate at h
    rw [hp] at h
    simp only [Bool.false_eq_true, if_false] at h
    rcases Option.map_eq_some'.mp h with ⟨st3, h3, rfl⟩
    intro o ho
    refine removeDeadAgents_coords
      (fun x y => 0 ≤ x ∧ x ≤ st.width ∧ 0 ≤ y ∧ y ≤ st.height) h3 ?_ o ho
    intro p hp2
    rcases List.mem_map.mp hp2 with ⟨q, _, heq⟩
    subst heq
    exact clamp2D_bounds hw hh _
  · intro st st' hp ht hw hh h
    unfold gridUpdate at h
    rw [hp] at h
    simp only [Bool.false_eq_true, if_false] at h
    rcases Option.bind_eq_some.mp h with ⟨st1, h1, h⟩
    rcases Option.bind_eq_some.mp h with ⟨r, hr, h⟩
    have htor : st1.tor = false := by
      unfold gridProcessAgents at h1
      rcases Option.map_eq_some'.mp h1 with ⟨r1, _, rfl⟩
      exact ht
    rw [htor] at hr
    have hw1 : st1.gwidth = st.gwidth := by
      unfold gridProcessAgents at h1
      rcases Option.map_eq_some'.mp h1 with ⟨r1, _, rfl⟩
      rfl
    have hh1 : st1.gheight = st.gheight := by
      unfold gridProcessAgents at h1
      rcases Option.map_eq_some'.mp h1 with ⟨r1, _, rfl⟩
      rfl
    rw [hw1, hh1] at hr
    have hbounds := gridObjLoop_bounds cosDeg sinDeg δ hw hh st1.objects
      st1.grid r hr
    unfold gridRemoveDeadAgents at h
    rcases Option.bind_eq_some.mp h with ⟨st2, h2, hfin⟩
    cases hfin
    intro o ho
    exact gridRemoveDead_coords
      (fun x y => 0 ≤ x ∧ x ≤ (st.gwidth : ℚ) - 1 ∧
        0 ≤ y ∧ y ≤ (st.gheight : ℚ) - 1)
      st1.deadAgents _ st2 h2 hbounds o ho

/-- Concrete worlds used to witness C5. -/
def stC5a : World2DSt := { objects := [{ oid := 0 }], paused := false }

set_option maxRecDepth 100000 in
theorem C5_witness :
    (∀ o ∈ stC5a.objects,
      0 ≤ o.x ∧ o.x ≤ stC5a.width ∧ 0 ≤ o.y ∧ o.y ≤ stC5a.height) ∧
    (∀ o ∈ stC1.objects, 0 ≤ o.x ∧ o.x ≤ (stC1.gwidth : ℚ) - 1 ∧
      0 ≤ o.y ∧ o.y ≤ (stC1.gheight : ℚ) - 1) :=
  ⟨(C5_bounds_after_update (fun _ => 0) (fun _ => 0) (fun _ _ => [])
      (fun _ _ => []) 1).1 stC5a stC5a rfl (by norm_num [stC5a])
      (by norm_num [stC5a]) (by with_unfolding_all decide),
   (C5_bounds_after_update (fun _ => 0) (fun _ => 0) (fun _ _ => [])
      (fun _ _ => []) 1).2 stC1 stC1 rfl rfl (by decide) (by decide)
      (by with_unfolding_all decide)⟩

end Pyafai
